import Mathlib

/-!
# Verification of the controller-utils reconciliation engine

A shallow embedding of the core orchestration engine of the
coderanger/controller-utils repository, together with proofs checking the
natural-language specification against it.

Embedded pieces (translated from the Go source):
* `core.Context.mergeResult`, `core.Reconciler.Reconcile` (component loop,
  finalizer handling, error aggregation) — `src/templates/filesystem.go`
  (the `core` package documents inside that file).
* `core.conditionsHelper` (`Set`, `Flush`) — `src/core/conditions.go`.
* `components.templateComponent.reconcileDelete` / `referSameObject` —
  `src/components/template.go`.
* `components.readyStatusComponent` — `src/unnamed/part_008`.
* `predicates.secretFieldPredicate` — `src/unnamed/part_001`.
* `components.randomSecretComponent` / `randstring.RandomBytes` —
  `src/components/random_secret.go`, `src/unnamed/part_002`.
* `core.ContextData.GetString` — `src/components/context.go`.

Go conventions are modelled explicitly: a Go `error` value is
`Option String` (`none` = nil, `some msg` = an error whose `Error()` is
`msg`); computations that can panic return a `GoResult`.
-/

set_option autoImplicit false

namespace CtrlUtils

/-- Outcome of a Go computation that may panic (e.g. a failed unchecked type
assertion): either a value or a runtime panic. -/
inductive GoResult (α : Type) where
  | ok (a : α)
  | panics
  deriving Repr, DecidableEq

/-- `github.com/pkg/errors.Wrapf(err, msg)`: returns nil when `err` is nil,
otherwise an error whose message is `msg ++ ": " ++ err.Error()`. -/
def wrapf : Option String → String → Option String
  | none, _ => none
  | some m, msg => some (msg ++ ": " ++ m)

/-- `core.Result` (requeue hints produced by one component). `RequeueAfter`
is a duration, modelled as a `Nat` count of nanoseconds; `0` means unset. -/
structure Result where
  requeue : Bool := false
  requeueAfter : Nat := 0
  skipRemaining : Bool := false
  deriving Repr, DecidableEq, Inhabited

/-- `metav1.ConditionStatus` restricted to the three values used by the
code: True, False, Unknown. -/
inductive ConditionStatus where
  | isTrue
  | isFalse
  | unknown
  deriving Repr, DecidableEq

/-- A status condition (`conditions.Condition`).  `LastTransitionTime` is
not modelled: no claim under verification mentions timestamps. -/
structure Condition where
  condType : String
  status : ConditionStatus
  observedGeneration : Int
  reason : String
  message : String
  deriving Repr, DecidableEq

/-- `conditions.SetStatusCondition`.
Modelled from the spec: the `conditions` package itself is not under
`src/` (only its callers are).  Per the spec, a condition entry is unique
per Type and is upserted: Status/Reason/Message/ObservedGeneration always
update, and a new entry is appended when the Type is not present. -/
def setStatusCondition (conds : List Condition) (c : Condition) : List Condition :=
  if conds.any (fun o => o.condType = c.condType) then
    conds.map (fun o => if o.condType = c.condType then c else o)
  else
    conds ++ [c]

/-- `conditions.IsStatusConditionPresentAndEqual`.
Modelled from the spec: the `conditions` package is not under `src/`.
True when a condition of the given type is present in the list and its
status equals the given status (types are unique per the spec, so the
first match decides). -/
def isStatusConditionPresentAndEqual (conds : List Condition) (t : String) (s : ConditionStatus) : Bool :=
  match conds.find? (fun c => c.condType = t) with
  | some c => c.status = s
  | none => false

/-! ## The engine: `core.Reconciler.Reconcile` and `core.Context.mergeResult`

One registered component is modelled as its registration data plus the
outcome its `Reconcile`/`Finalize` call would produce during this pass
(each component is invoked at most once per pass, so a fixed outcome per
component fully describes one pass). -/

/-- One component as registered with `Reconciler.Component`, together with
the outcome of its `Reconcile` / `Finalize` invocation for this pass.
`readyConditionRaw` is the string returned by `GetReadyCondition` when the
component implements `ReadyConditionComponent` (the empty string
otherwise; the engine guards every use on it being nonempty, so the two
cases coincide).  `hasFinalizer` records whether the component implements
`FinalizerComponent`. -/
structure ComponentModel where
  name : String
  hasFinalizer : Bool := false
  readyConditionRaw : String := ""
  reconcileResult : Result := {}
  reconcileErr : Option String := none
  finalizeResult : Result := {}
  finalizeDone : Bool := false
  finalizeErr : Option String := none
  deriving Repr, DecidableEq

/-- The `!`-prefix parsing done in `Reconciler.Component`: if the ready
condition name starts with `!`, trim it and invert the error status
(`errorConditionStatus` becomes True instead of False). -/
def parseReadyCondition (raw : String) : String × ConditionStatus :=
  if raw ≠ "" ∧ raw.front = '!' then (raw.drop 1, .isTrue) else (raw, .isFalse)

/-- `controllerutil.AddFinalizer`: append the token if not already present. -/
def addFinalizer (fs : List String) (n : String) : List String :=
  if n ∈ fs then fs else fs ++ [n]

/-- `controllerutil.RemoveFinalizer`: remove every occurrence of the token. -/
def removeFinalizer (fs : List String) (n : String) : List String :=
  fs.filter (fun f => f ≠ n)

/-- Mutable state accumulated across one reconcile pass: the object's
finalizer list and condition list, the conditions helper's pending buffer,
and the `Context` accumulators (`errors`, `result`).  `invoked`,
`finalized` and `flushCount` record which components' `Reconcile` resp.
`Finalize` were called and how many times `Conditions.Flush` ran; they are
observation logs of calls the Go code makes, added so theorems can speak
about them. -/
structure PassState where
  finalizers : List String := []
  pending : List (String × Condition) := []
  conds : List Condition := []
  errors : List (Option String) := []
  requeue : Bool := false
  requeueAfter : Nat := 0
  invoked : List String := []
  finalized : List String := []
  flushCount : Nat := 0
  deriving Repr, DecidableEq

/-- `conditionsHelper.Set`: buffer a pending condition keyed by type (last
write wins before flush). -/
def setPending (pending : List (String × Condition)) (c : Condition) : List (String × Condition) :=
  if pending.any (fun p => p.1 = c.condType) then
    pending.map (fun p => if p.1 = c.condType then (p.1, c) else p)
  else
    pending ++ [(c.condType, c)]

/-- Environment of one pass that is fixed for its duration: whether the
object is alive (`GetDeletionTimestamp() == nil`), whether
`GetConditionsFor` succeeds on the object (`Flush` fails otherwise), the
finalizer base name (`{controller}.{group}/`) and the object generation. -/
structure PassEnv where
  alive : Bool := true
  condsAccessible : Bool := true
  finalizerBase : String := ""
  generation : Int := 0

/-- `conditionsHelper.Flush`: on success apply every pending condition to
the object's condition list and clear the buffer; when the object's
conditions are not accessible, fail (leaving the buffer in place).  The
flush counter is an observation log. -/
def flushConditions (env : PassEnv) (st : PassState) : Option String × PassState :=
  let st := { st with flushCount := st.flushCount + 1 }
  if env.condsAccessible then
    (none, { st with
      conds := st.pending.foldl (fun cs p => setStatusCondition cs p.2) st.conds,
      pending := [] })
  else
    (some "error getting status conditions: unable to get conditions", st)

/-- First statement pair of `mergeResult`: when the flush returned an
error `condErr`, append `errors.Wrapf(err, "error in %s component
condition flush", name)` to the accumulated errors.  Note the Go code
wraps `err` — the component's own error — not the flush error `condErr`. -/
def recordFlushErr (condErr : Option String) (name : String) (err : Option String) (st : PassState) : PassState :=
  if condErr.isSome then
    { st with errors := st.errors ++ [wrapf err ("error in " ++ name ++ " component condition flush")] }
  else st

/-- `mergeResult`: when the component returned an error, append
`errors.Wrapf(err, "error in %s component reconcile", name)`. -/
def recordReconcileErr (name : String) (err : Option String) (st : PassState) : PassState :=
  if err.isSome then
    { st with errors := st.errors ++ [wrapf err ("error in " ++ name ++ " component reconcile")] }
  else st

/-- `mergeResult`: `if componentResult.Requeue { c.result.Requeue = true }`. -/
def recordRequeue (componentResult : Result) (st : PassState) : PassState :=
  if componentResult.requeue then { st with requeue := true } else st

/-- `mergeResult`: keep the smaller of the current and incoming nonzero
`RequeueAfter` values. -/
def recordRequeueAfter (componentResult : Result) (st : PassState) : PassState :=
  if componentResult.requeueAfter ≠ 0 ∧ (st.requeueAfter = 0 ∨ st.requeueAfter > componentResult.requeueAfter) then
    { st with requeueAfter := componentResult.requeueAfter }
  else st

/-- `core.Context.mergeResult`: flush conditions, record the flush error,
record the component error, OR the requeue flag and keep the minimum
nonzero requeue-after. -/
def mergeResult (env : PassEnv) (name : String) (componentResult : Result) (err : Option String) (st : PassState) : PassState :=
  let flushed := flushConditions env st
  recordRequeueAfter componentResult
    (recordRequeue componentResult
      (recordReconcileErr name err
        (recordFlushErr flushed.1 name err flushed.2)))

/-- `if rc.readyCondition != "" { ctx.Conditions.SetUnknown(...) }` at the
top of each loop iteration: a terminal status never survives a skipped
run. -/
def setUnknownCondition (env : PassEnv) (c : ComponentModel) (st : PassState) : PassState :=
  let rcCond := (parseReadyCondition c.readyConditionRaw).1
  if rcCond ≠ "" then
    { st with pending := setPending st.pending ⟨rcCond, .unknown, env.generation, "Unknown", ""⟩ }
  else st

/-- The `if isAlive { ... } else if ... { Finalize } ` block of the loop:
returns the state after the invocation together with the component's
`Result` and error.  When alive, `Reconcile` is invoked and — whatever it
returned — the finalizer token is added for `FinalizerComponent`s; when
not alive and the token is present, `Finalize` is invoked and the token
removed when it reports done; otherwise nothing runs and the zero
`Result` with a nil error is used. -/
def invokeComponent (env : PassEnv) (c : ComponentModel) (st : PassState) : PassState × Result × Option String :=
  let finalizerName := env.finalizerBase ++ c.name
  if env.alive then
    let st1 := { st with invoked := st.invoked ++ [c.name] }
    let st2 := if c.hasFinalizer then { st1 with finalizers := addFinalizer st1.finalizers finalizerName } else st1
    (st2, c.reconcileResult, c.reconcileErr)
  else if c.hasFinalizer ∧ finalizerName ∈ st.finalizers then
    let st1 := { st with finalized := st.finalized ++ [c.name] }
    let st2 := if c.finalizeDone then { st1 with finalizers := removeFinalizer st1.finalizers finalizerName } else st1
    (st2, c.finalizeResult, c.finalizeErr)
  else
    (st, {}, none)

/-- `if err != nil && rc.readyCondition != "" { ctx.Conditions.Set(...) }`:
mark the declared condition with the configured error polarity. -/
def setErrorCondition (env : PassEnv) (c : ComponentModel) (err : Option String) (st : PassState) : PassState :=
  let rcCond := (parseReadyCondition c.readyConditionRaw).1
  let errStatus := (parseReadyCondition c.readyConditionRaw).2
  match err with
  | some msg =>
    if rcCond ≠ "" then
      { st with pending := setPending st.pending ⟨rcCond, errStatus, env.generation, "Error", msg⟩ }
    else st
  | none => st

/-- One iteration of the component loop in `Reconciler.Reconcile`: set the
declared ready condition to Unknown, invoke the component (reconcile or
finalize), mark the declared condition on error, and merge the result.
Returns the updated state and the component's `Result` (whose
`skipRemaining` the caller inspects). -/
def runComponent (env : PassEnv) (c : ComponentModel) (st : PassState) : PassState × Result :=
  let inv := invokeComponent env c (setUnknownCondition env c st)
  let res := inv.2.1
  let err := inv.2.2
  (mergeResult env c.name res err (setErrorCondition env c err inv.1), res)

/-- The component loop of `Reconciler.Reconcile`: run each component in
order, stopping after a component whose `Result` sets `SkipRemaining`. -/
def runComponents (env : PassEnv) : List ComponentModel → PassState → PassState
  | [], st => st
  | c :: rest, st =>
    let step := runComponent env c st
    if step.2.skipRemaining then step.1 else runComponents env rest step.1

/-- One whole pass over the components starting from the object's current
finalizers and conditions (metadata/status patching and the
skip-reconcile annotation are outside the modelled claims; the patches do
not alter the accumulated errors or result). -/
def runReconcilePass (env : PassEnv) (comps : List ComponentModel) (initialFinalizers : List String) (initialConds : List Condition) : PassState :=
  runComponents env comps { finalizers := initialFinalizers, conds := initialConds }

/-- The `.Error()` call on a Go error: panics on nil. -/
def errString : Option String → GoResult String
  | some m => .ok m
  | none => .panics

/-- Body of the combined message built by `Reconciler.Reconcile` for
multiple errors: for each error two spaces, `e.Error()`, and a newline
(panicking if an accumulated entry is nil). -/
def multiErrorBody : List (Option String) → GoResult String
  | [] => .ok ""
  | e :: rest =>
    match errString e with
    | .panics => .panics
    | .ok m =>
      match multiErrorBody rest with
      | .panics => .panics
      | .ok s => .ok ("  " ++ m ++ "\n" ++ s)

/-- The final-error construction at the end of `Reconciler.Reconcile`:
no accumulated errors yields nil, exactly one yields that entry itself,
several yield one combined error listing each. -/
def buildFinalError (errs : List (Option String)) : GoResult (Option String) :=
  match errs with
  | [] => .ok none
  | [e] => .ok e
  | _ =>
    match multiErrorBody errs with
    | .panics => .panics
    | .ok body => .ok (some ("Multiple errors:\n" ++ body))

/-- The `(ctrl.Result, error)` pair returned by `Reconciler.Reconcile`
after a pass whose metadata/status patches succeed. -/
def passFinalError (env : PassEnv) (comps : List ComponentModel) (initialFinalizers : List String) (initialConds : List Condition) : GoResult (Option String) :=
  buildFinalError (runReconcilePass env comps initialFinalizers initialConds).errors

/-- Insertion into a Go `map` modelled as an association list: replace the
entry with the same key, otherwise append. -/
def mapInsert {α : Type} (m : List (String × α)) (k : String) (v : α) : List (String × α) :=
  if m.any (fun p => p.1 = k) then m.map (fun p => if p.1 = k then (k, v) else p) else m ++ [(k, v)]

/-! ## `predicates.secretFieldPredicate` (`src/unnamed/part_001`) -/

/-- A value inside an unstructured object's `data` map
(`interface{}`): a string or something else. -/
inductive UnstructuredValue where
  | str (s : String)
  | nonString
  deriving Repr, DecidableEq

/-- The `data` field of an unstructured object's content: a string-keyed
map or a value of some other shape. -/
inductive UnstructuredData where
  | strMap (entries : List (String × UnstructuredValue))
  | nonMap
  deriving Repr, DecidableEq

/-- A watch-event object as `secretFieldPredicate.secretData`
distinguishes them: a typed `corev1.Secret` (with already-decoded byte
values), an `unstructured.Unstructured` (with its GVK and optional
`data` content field), or an object of any other kind. -/
inductive EventObject where
  | typedSecret (data : List (String × List Nat))
  | unstructuredObj (gvkGroup gvkKind : String) (dataField : Option UnstructuredData)
  | otherKind
  deriving Repr, DecidableEq

/-- The value of one character in the standard base64 alphabet
(`encoding/base64.StdEncoding`, an external stdlib collaborator). -/
def b64StdIndex (c : Char) : Option Nat :=
  if 'A' ≤ c ∧ c ≤ 'Z' then some (c.toNat - 'A'.toNat)
  else if 'a' ≤ c ∧ c ≤ 'z' then some (c.toNat - 'a'.toNat + 26)
  else if '0' ≤ c ∧ c ≤ '9' then some (c.toNat - '0'.toNat + 52)
  else if c = '+' then some 62
  else if c = '/' then some 63
  else none

/-- Standard padded base64 decoding in four-character blocks
(`base64.StdEncoding.DecodeString`, an external stdlib collaborator):
`none` models the `CorruptInputError` the Go decoder returns on
malformed input (bad length, bad character, misplaced padding). -/
def b64DecodeQuads : List Char → Option (List Nat)
  | [] => some []
  | c1 :: c2 :: c3 :: c4 :: rest =>
    match b64StdIndex c1, b64StdIndex c2 with
    | some i1, some i2 =>
      if c3 = '=' then
        if c4 = '=' ∧ rest = [] then some [i1 * 4 + i2 / 16] else none
      else
        match b64StdIndex c3 with
        | some i3 =>
          if c4 = '=' then
            if rest = [] then some [i1 * 4 + i2 / 16, i2 % 16 * 16 + i3 / 4] else none
          else
            match b64StdIndex c4, b64DecodeQuads rest with
            | some i4, some bs => some ([i1 * 4 + i2 / 16, i2 % 16 * 16 + i3 / 4, i3 % 4 * 64 + i4] ++ bs)
            | _, _ => none
        | none => none
    | _, _ => none
  | _ => none

def base64StdDecode (s : String) : Option (List Nat) :=
  b64DecodeQuads s.toList

/-- The decoding loop inside `secretFieldPredicate.secretData` for
unstructured Secrets: every value must be a string
(`v.(string)` is unchecked) and must base64-decode (a decode error is
answered with `panic(err)` in the source). -/
def decodeUnstructuredEntries : List (String × UnstructuredValue) → GoResult (List (String × List Nat))
  | [] => .ok []
  | (k, v) :: rest =>
    match v with
    | .nonString => .panics
    | .str s =>
      match base64StdDecode s with
      | none => .panics
      | some bytes =>
        match decodeUnstructuredEntries rest with
        | .panics => .panics
        | .ok m => .ok ((k, bytes) :: m)

/-- `secretFieldPredicate.secretData`: typed Secrets expose their data
directly; unstructured objects whose GVK is core-group `Secret` have
their `data` field decoded (panicking on malformed payloads); anything
else reports `(nil, false)`, modelled as `ok none`. -/
def secretData (obj : EventObject) : GoResult (Option (List (String × List Nat))) :=
  match obj with
  | .typedSecret data => .ok (some data)
  | .unstructuredObj g k df =>
    if g = "" ∧ k = "Secret" then
      match df with
      | some (.strMap entries) =>
        match decodeUnstructuredEntries entries with
        | .panics => .panics
        | .ok m => .ok (some m)
      | some .nonMap => .panics
      | none => .ok none
    else .ok none
  | .otherKind => .ok none

/-- `secretFieldPredicate.Update`: unreadable old or new payloads
(`ok == false`) process the event; otherwise the event is processed iff
some configured key's presence or value differs (`oldOk != newOk ||
!bytes.Equal(oldVal, newVal)`; absent keys yield nil values). -/
def secretFieldUpdate (keys : List String) (objOld objNew : EventObject) : GoResult Bool :=
  match secretData objOld with
  | .panics => .panics
  | .ok none => .ok true
  | .ok (some oldData) =>
    match secretData objNew with
    | .panics => .panics
    | .ok none => .ok true
    | .ok (some newData) =>
      .ok (keys.any (fun key =>
        let oldVal := oldData.find? (fun p => p.1 = key)
        let newVal := newData.find? (fun p => p.1 = key)
        oldVal.isSome != newVal.isSome ||
          !((oldVal.map (fun p => p.2)).getD [] == (newVal.map (fun p => p.2)).getD [])))

/-- `secretFieldPredicate.Create` processes every create event. -/
def secretFieldCreate : Bool := true

/-- `secretFieldPredicate.Delete` processes every delete event. -/
def secretFieldDelete : Bool := true

/-- `secretFieldPredicate.Generic` processes every generic event. -/
def secretFieldGeneric : Bool := true

/-! ## `components.randomSecretComponent` (`src/components/random_secret.go`)
and `randstring.RandomBytes` (`src/unnamed/part_002`) -/

/-- The 64-character alphabet of `RandEncoding`: a lossy, host-safe
base64-like alphabet built only from lowercase letters. -/
def randAlphabet : List Char :=
  "abcdefghijklmnopqrstuvwxyzabcdefghijklmnopqrstuvwxyzabcdefghijkl".toList

def RANDOM_BYTES : Nat := 32

/-- Big-endian 6-bit symbol groups of base64 encoding without padding
(`base64.Encoding.Encode` with `NoPadding`): each full 3-byte block makes
four symbols, a 2-byte tail three, a 1-byte tail two. -/
def b64Groups : List Nat → List Nat
  | [] => []
  | [b1] => [b1 / 4, b1 % 4 * 16]
  | [b1, b2] => [b1 / 4, b1 % 4 * 16 + b2 / 16, b2 % 16 * 4]
  | b1 :: b2 :: b3 :: rest =>
    b1 / 4 :: (b1 % 4 * 16 + b2 / 16) :: (b2 % 16 * 4 + b3 / 64) :: b3 % 64 :: b64Groups rest

/-- `RandEncoding.Encode`: map each 6-bit group to its alphabet
character. -/
def randEncode (raw : List Nat) : List Char :=
  (b64Groups raw).map (fun v => randAlphabet.getD v ' ')

/-- The per-key loop of `randomSecretComponent.Reconcile`
(`random_secret.go` lines 84–100) with the random source made explicit:
`rand i` supplies the `RANDOM_BYTES` raw random bytes of the i-th
generation performed during this pass.  A key present in the existing
secret with a nonempty value is kept; an absent key or an empty value is
regenerated via `randstring.RandomBytes RANDOM_BYTES`, i.e. the encoding
of 32 fresh random bytes.  Values are modelled as the stored character
lists. -/
def randomSecretLoop (existing : List (String × List Char)) (rand : Nat → List Nat) :
    List String → List (String × List Char) → Nat → List (String × List Char)
  | [], data, _ => data
  | k :: rest, data, i =>
    match existing.find? (fun p => p.1 = k) with
    | some p =>
      if p.2.length = 0 then
        randomSecretLoop existing rand rest (mapInsert data k (randEncode (rand i))) (i + 1)
      else
        randomSecretLoop existing rand rest (mapInsert data k p.2) i
    | none =>
      randomSecretLoop existing rand rest (mapInsert data k (randEncode (rand i))) (i + 1)

/-- The `data` map built by one `randomSecretComponent.Reconcile` run. -/
def randomSecretData (keys : List String) (existing : List (String × List Char)) (rand : Nat → List Nat) : List (String × List Char) :=
  randomSecretLoop existing rand keys [] 0

/-! ## Characterization lemmas for the engine loop -/

/-- The update the code applies to the running `RequeueAfter`: keep the
incoming value when it is nonzero and either no value is set yet or it is
smaller than the current one. -/
def mergeAfter (a b : Nat) : Nat :=
  if b ≠ 0 ∧ (a = 0 ∨ a > b) then b else a

/-- The error entries `mergeResult` appends for one component whose call
returned error `e`: a (mis)wrapped flush entry when conditions are not
accessible, then the wrapped component error when `e` is non-nil. -/
def mergeStepErrors (env : PassEnv) (n : String) (e : Option String) : List (Option String) :=
  (if env.condsAccessible then []
   else [wrapf e ("error in " ++ n ++ " component condition flush")]) ++
  (if e.isSome then [wrapf e ("error in " ++ n ++ " component reconcile")] else [])

/-- The error entries one alive component contributes to the pass. -/
def stepErrors (env : PassEnv) (c : ComponentModel) : List (Option String) :=
  mergeStepErrors env c.name c.reconcileErr

/-- The finalizer token the engine uses for a component:
`finalizerBaseName ++ name`. -/
def finalizerNameOf (env : PassEnv) (c : ComponentModel) : String :=
  env.finalizerBase ++ c.name

/-- The finalizer tokens accumulated over a list of components. -/
def foldFinalizers (env : PassEnv) (comps : List ComponentModel) (fs : List String) : List String :=
  comps.foldl (fun acc c => if c.hasFinalizer then addFinalizer acc (finalizerNameOf env c) else acc) fs

/-! ## `core.ContextData.GetString` (`src/components/context.go`) -/

/-- A value stored in `ContextData` (`map[string]interface{}`): a string,
or a value of any other dynamic type. -/
inductive GoValue where
  | str (s : String)
  | nonString
  deriving Repr, DecidableEq

/-- `ContextData.GetString`: `val, ok := d[key]; return val.(string), ok`.
The type assertion is unchecked: a missing key leaves `val` the nil
interface and the assertion panics, and a non-string value panics as
well; only a present string value returns. -/
def GetString (d : List (String × GoValue)) (key : String) : GoResult (String × Bool) :=
  match d.find? (fun p => p.1 = key) with
  | some (_, .str s) => .ok (s, true)
  | some (_, .nonString) => .panics
  | none => .panics

/-! ## `components.readyStatusComponent` (`src/unnamed/part_008`) -/

/-- `strings.HasPrefix(key, "-")`: true when the first character is `-`
(false on the empty string, whose `front` is the default character). -/
def hasDashMark (key : String) : Bool :=
  key ≠ "" ∧ key.front = '-'

/-- The per-key parsing in `NewReadyStatusComponent`: a leading `-` is
trimmed off the condition name. -/
def conditionNameFor (key : String) : String :=
  if hasDashMark key then key.drop 1 else key

/-- The per-key parsing in `NewReadyStatusComponent`: the goal status is
False for a `-`-prefixed key and True otherwise. -/
def desiredStatusFor (key : String) : ConditionStatus :=
  if hasDashMark key then .isFalse else .isTrue

/-- `NewReadyStatusComponent`: fold the keys into the `readyConditions`
map of desired statuses. -/
def parseReadyKeys (keys : List String) : List (String × ConditionStatus) :=
  keys.foldl (fun m key => mapInsert m (conditionNameFor key) (desiredStatusFor key)) []

/-- `strings.Join(keys, ", ")`: the keys separated by a comma and a
space. -/
def joinComma : List String → String
  | [] => ""
  | [k] => k
  | k :: rest => k ++ ", " ++ joinComma rest

/-- The arguments of one `ctx.Conditions.Set`/`Setf` call. -/
structure SetArgs where
  condType : String
  status : ConditionStatus
  reason : String
  message : String
  deriving Repr, DecidableEq

/-- `readyStatusComponent.Reconcile`: start from True/CompositeReady and
flip to False/CompositeNotRead when any entry of the `readyConditions`
map is not present-and-equal on the object (the Go loop breaks at the
first such entry; which entry fires does not change the outcome), then
issue one `Setf("Ready", ...)` whose message joins the raw keys with
a comma. -/
def readyStatusReconcile (keys : List String) (objConditions : List Condition) : SetArgs :=
  if (parseReadyKeys keys).any (fun p => !(isStatusConditionPresentAndEqual objConditions p.1 p.2)) then
    ⟨"Ready", .isFalse, "CompositeNotRead",
      "ReadyStatusComponent did not observe correct status of " ++ joinComma keys⟩
  else
    ⟨"Ready", .isTrue, "CompositeReady",
      "ReadyStatusComponent observed correct status of " ++ joinComma keys⟩

/-! ## `components.templateComponent.reconcileDelete` (`src/components/template.go`) -/

/-- `metav1.OwnerReference` restricted to the fields `reconcileDelete`
reads. -/
structure OwnerReference where
  apiVersion : String
  kind : String
  name : String
  controller : Bool := false
  deriving Repr, DecidableEq

structure GroupVersionKind where
  group : String
  version : String
  kind : String
  deriving Repr, DecidableEq

/-- Splitting a character list on `/` (the slash-counting and indexing
done by `schema.ParseGroupVersion`). -/
def splitSlashAux : List Char → List Char → List (List Char)
  | [], acc => [acc.reverse]
  | c :: rest, acc =>
    if c = '/' then acc.reverse :: splitSlashAux rest []
    else splitSlashAux rest (c :: acc)

/-- `schema.ParseGroupVersion`: no slash means an empty group (the empty
string parses to the empty GroupVersion), one slash splits group/version,
more is an error. -/
def parseGroupVersion (s : String) : Option (String × String) :=
  match splitSlashAux s.toList [] with
  | [v] => some ("", String.mk v)
  | [g, v] => some (String.mk g, String.mk v)
  | _ => none

/-- `templateComponent.referSameObject`: parse the owner reference's
APIVersion, look up the Managed Resource's GVK in the scheme (`none`
models a failed lookup, which yields false) and compare group, kind and
name. -/
def referSameObject (ownerRef : OwnerReference) (objGVK : Option GroupVersionKind) (objName : String) : Bool :=
  match parseGroupVersion ownerRef.apiVersion with
  | none => false
  | some gv =>
    match objGVK with
    | none => false
    | some gvk => gv.1 == gvk.group && ownerRef.kind == gvk.kind && ownerRef.name == objName

/-- `metav1.GetControllerOf`: the owner reference flagged as controller,
if any. -/
def getControllerOf (refs : List OwnerReference) : Option OwnerReference :=
  refs.find? (fun r => r.controller)

/-- Outcome of the `ctx.Client.Get` on the rendered target: absent, a
transport error, or present with its owner references. -/
inductive GetOutcome where
  | notFound
  | getErr (msg : String)
  | found (ownerRefs : List OwnerReference)
  deriving Repr, DecidableEq

/-- Outcome of the `ctx.Client.Delete` call. -/
inductive DeleteOutcome where
  | deleted
  | notFound
  | deleteErr (msg : String)
  deriving Repr, DecidableEq

inductive DeletePropagation where
  | background
  deriving Repr, DecidableEq

/-- Observable behaviour of one `reconcileDelete` run: the condition
`Setf` calls it issued, whether (and with which propagation policy) it
called Delete, and the returned `(Result, error)`. -/
structure DeleteFlowOutput where
  conditions : List SetArgs
  deleteIssued : Option DeletePropagation
  result : Result
  err : Option String
  deriving Repr, DecidableEq

/-- `templateComponent.reconcileDelete`.  `conditionType` is the step's
declared condition type, `kind`/`objNamespace`/`objName` describe the
rendered target, `ownerName` is the Managed Resource's name and `objGVK`
its scheme lookup; `get` and `del` are the collaborator outcomes. -/
def reconcileDelete (conditionType kind objNamespace objName ownerName : String)
    (objGVK : Option GroupVersionKind) (get : GetOutcome) (del : DeleteOutcome) : DeleteFlowOutput :=
  match get with
  | .notFound =>
    { conditions :=
        if conditionType ≠ "" then
          [⟨conditionType, .isTrue, "UpstreamDoesNotExist",
            "Upstream " ++ kind ++ " " ++ objName ++ " does not exist"⟩]
        else [],
      deleteIssued := none, result := {}, err := none }
  | .getErr m =>
    { conditions := [], deleteIssued := none, result := {},
      err := some ("error getting current object " ++ objNamespace ++ "/" ++ objName ++ " for owner: " ++ m) }
  | .found refs =>
    let owned :=
      match getControllerOf refs with
      | none => false
      | some r => referSameObject r objGVK ownerName
    if owned then
      match del with
      | .deleteErr m =>
        { conditions := [], deleteIssued := some .background, result := {},
          err := some ("error deleting " ++ objNamespace ++ "/" ++ objName ++ ": " ++ m) }
      | _ =>
        { conditions :=
            if conditionType ≠ "" then
              [⟨conditionType, .isTrue, "UpstreamDoesNotExist",
                "Upstream " ++ kind ++ " " ++ objName ++ " does not exist"⟩]
            else [],
          deleteIssued := some .background, result := {}, err := none }
    else
      { conditions :=
          if conditionType ≠ "" then
            [⟨conditionType, .isTrue, "UpstreamNotOwned",
              "Upstream " ++ kind ++ " " ++ objName ++ " is not owned by " ++ ownerName⟩]
          else [],
        deleteIssued := none, result := {}, err := none }

theorem recordFlushErr_eq (ce : Option String) (n : String) (e : Option String) (st : PassState) :
    recordFlushErr ce n e st =
      { st with errors := st.errors ++
          if ce.isSome then [wrapf e ("error in " ++ n ++ " component condition flush")] else [] } := by
  unfold recordFlushErr
  split <;> simp_all

theorem recordReconcileErr_eq (n : String) (e : Option String) (st : PassState) :
    recordReconcileErr n e st =
      { st with errors := st.errors ++
          if e.isSome then [wrapf e ("error in " ++ n ++ " component reconcile")] else [] } := by
  unfold recordReconcileErr
  split <;> simp_all

theorem recordRequeue_eq (r : Result) (st : PassState) :
    recordRequeue r st = { st with requeue := st.requeue || r.requeue } := by
  unfold recordRequeue
  cases h : r.requeue <;> simp_all

theorem recordRequeueAfter_eq (r : Result) (st : PassState) :
    recordRequeueAfter r st = { st with requeueAfter := mergeAfter st.requeueAfter r.requeueAfter } := by
  unfold recordRequeueAfter mergeAfter
  split <;> simp_all

theorem flushConditions_fst (env : PassEnv) (st : PassState) :
    (flushConditions env st).1 =
      if env.condsAccessible then none
      else some "error getting status conditions: unable to get conditions" := by
  unfold flushConditions
  split <;> simp_all

theorem flushConditions_snd (env : PassEnv) (st : PassState) :
    (flushConditions env st).2 =
      { st with
        flushCount := st.flushCount + 1,
        conds := if env.condsAccessible then st.pending.foldl (fun cs p => setStatusCondition cs p.2) st.conds else st.conds,
        pending := if env.condsAccessible then [] else st.pending } := by
  unfold flushConditions
  split <;> simp_all

theorem mergeResult_eq (env : PassEnv) (n : String) (r : Result) (e : Option String) (st : PassState) :
    mergeResult env n r e st =
      { st with
        flushCount := st.flushCount + 1,
        conds := if env.condsAccessible then st.pending.foldl (fun cs p => setStatusCondition cs p.2) st.conds else st.conds,
        pending := if env.condsAccessible then [] else st.pending,
        errors := st.errors ++ mergeStepErrors env n e,
        requeue := st.requeue || r.requeue,
        requeueAfter := mergeAfter st.requeueAfter r.requeueAfter } := by
  simp only [mergeResult, mergeStepErrors]
  rw [recordFlushErr_eq, recordReconcileErr_eq, recordRequeue_eq, recordRequeueAfter_eq,
    flushConditions_fst, flushConditions_snd]
  cases h : env.condsAccessible <;> simp_all

theorem setUnknownCondition_pendingOnly (env : PassEnv) (c : ComponentModel) (st : PassState) :
    ∃ p, setUnknownCondition env c st = { st with pending := p } := by
  simp only [setUnknownCondition]
  split
  · exact ⟨_, rfl⟩
  · exact ⟨st.pending, rfl⟩

theorem setErrorCondition_pendingOnly (env : PassEnv) (c : ComponentModel) (e : Option String) (st : PassState) :
    ∃ p, setErrorCondition env c e st = { st with pending := p } := by
  simp only [setErrorCondition]
  cases e with
  | none => exact ⟨st.pending, rfl⟩
  | some msg =>
    dsimp only
    split
    · exact ⟨_, rfl⟩
    · exact ⟨st.pending, rfl⟩

theorem invokeComponent_alive (env : PassEnv) (c : ComponentModel) (st : PassState) (h : env.alive = true) :
    invokeComponent env c st =
      ({ st with
          invoked := st.invoked ++ [c.name],
          finalizers := if c.hasFinalizer then addFinalizer st.finalizers (finalizerNameOf env c) else st.finalizers },
       c.reconcileResult, c.reconcileErr) := by
  unfold invokeComponent finalizerNameOf
  cases hf : c.hasFinalizer <;> simp_all

theorem mergeWithErrCond_invoked (env : PassEnv) (c : ComponentModel) (r : Result) (e : Option String) (st : PassState) :
    (mergeResult env c.name r e (setErrorCondition env c e st)).invoked = st.invoked := by
  obtain ⟨p, hp⟩ := setErrorCondition_pendingOnly env c e st
  rw [hp, mergeResult_eq]

theorem mergeWithErrCond_finalized (env : PassEnv) (c : ComponentModel) (r : Result) (e : Option String) (st : PassState) :
    (mergeResult env c.name r e (setErrorCondition env c e st)).finalized = st.finalized := by
  obtain ⟨p, hp⟩ := setErrorCondition_pendingOnly env c e st
  rw [hp, mergeResult_eq]

theorem mergeWithErrCond_flushCount (env : PassEnv) (c : ComponentModel) (r : Result) (e : Option String) (st : PassState) :
    (mergeResult env c.name r e (setErrorCondition env c e st)).flushCount = st.flushCount + 1 := by
  obtain ⟨p, hp⟩ := setErrorCondition_pendingOnly env c e st
  rw [hp, mergeResult_eq]

theorem mergeWithErrCond_errors (env : PassEnv) (c : ComponentModel) (r : Result) (e : Option String) (st : PassState) :
    (mergeResult env c.name r e (setErrorCondition env c e st)).errors = st.errors ++ mergeStepErrors env c.name e := by
  obtain ⟨p, hp⟩ := setErrorCondition_pendingOnly env c e st
  rw [hp, mergeResult_eq]

theorem mergeWithErrCond_requeue (env : PassEnv) (c : ComponentModel) (r : Result) (e : Option String) (st : PassState) :
    (mergeResult env c.name r e (setErrorCondition env c e st)).requeue = (st.requeue || r.requeue) := by
  obtain ⟨p, hp⟩ := setErrorCondition_pendingOnly env c e st
  rw [hp, mergeResult_eq]

theorem mergeWithErrCond_requeueAfter (env : PassEnv) (c : ComponentModel) (r : Result) (e : Option String) (st : PassState) :
    (mergeResult env c.name r e (setErrorCondition env c e st)).requeueAfter = mergeAfter st.requeueAfter r.requeueAfter := by
  obtain ⟨p, hp⟩ := setErrorCondition_pendingOnly env c e st
  rw [hp, mergeResult_eq]

theorem mergeWithErrCond_finalizers (env : PassEnv) (c : ComponentModel) (r : Result) (e : Option String) (st : PassState) :
    (mergeResult env c.name r e (setErrorCondition env c e st)).finalizers = st.finalizers := by
  obtain ⟨p, hp⟩ := setErrorCondition_pendingOnly env c e st
  rw [hp, mergeResult_eq]

/-- Everything one alive component-loop iteration does to the observable
pass state (conditions buffering aside): records the invocation, adds the
finalizer for finalizer-capable components whatever the reconcile
outcome, flushes once, appends that component's error entries, ORs the
requeue flag and takes the smaller nonzero requeue-after. -/
theorem runComponent_alive_spec (env : PassEnv) (c : ComponentModel) (st : PassState) (h : env.alive = true) :
    (runComponent env c st).2 = c.reconcileResult ∧
    (runComponent env c st).1.invoked = st.invoked ++ [c.name] ∧
    (runComponent env c st).1.finalized = st.finalized ∧
    (runComponent env c st).1.flushCount = st.flushCount + 1 ∧
    (runComponent env c st).1.errors = st.errors ++ stepErrors env c ∧
    (runComponent env c st).1.requeue = (st.requeue || c.reconcileResult.requeue) ∧
    (runComponent env c st).1.requeueAfter = mergeAfter st.requeueAfter c.reconcileResult.requeueAfter ∧
    (runComponent env c st).1.finalizers =
      (if c.hasFinalizer then addFinalizer st.finalizers (finalizerNameOf env c) else st.finalizers) := by
  obtain ⟨p1, hp1⟩ := setUnknownCondition_pendingOnly env c st
  unfold runComponent
  rw [hp1, invokeComponent_alive _ _ _ h]
  dsimp only
  simp [mergeWithErrCond_invoked, mergeWithErrCond_finalized, mergeWithErrCond_flushCount,
    mergeWithErrCond_errors, mergeWithErrCond_requeue, mergeWithErrCond_requeueAfter,
    mergeWithErrCond_finalizers, stepErrors]

/-- Characterization of the whole component loop on a live resource when
no component requests `SkipRemaining`: every component is invoked in
order, the flush runs once per component, the error entries concatenate,
the requeue flag is the OR and the requeue-after the iterated merge. -/
theorem runComponents_alive_noskip (env : PassEnv) (comps : List ComponentModel) (st : PassState)
    (h : env.alive = true)
    (hns : ∀ c ∈ comps, c.reconcileResult.skipRemaining = false) :
    (runComponents env comps st).invoked = st.invoked ++ comps.map (fun c => c.name) ∧
    (runComponents env comps st).flushCount = st.flushCount + comps.length ∧
    (runComponents env comps st).errors = st.errors ++ (comps.map (stepErrors env)).flatten ∧
    (runComponents env comps st).requeue = (st.requeue || comps.any (fun c => c.reconcileResult.requeue)) ∧
    (runComponents env comps st).requeueAfter =
      comps.foldl (fun a c => mergeAfter a c.reconcileResult.requeueAfter) st.requeueAfter ∧
    (runComponents env comps st).finalizers = foldFinalizers env comps st.finalizers ∧
    (runComponents env comps st).finalized = st.finalized := by
  induction comps generalizing st with
  | nil => simp [runComponents, foldFinalizers]
  | cons c rest ih =>
    have hc := runComponent_alive_spec env c st h
    have hskip : (runComponent env c st).2.skipRemaining = false := by
      rw [hc.1]; exact hns c (List.mem_cons_self c rest)
    have hrest := ih (runComponent env c st).1 (fun x hx => hns x (List.mem_cons_of_mem c hx))
    have hloop : runComponents env (c :: rest) st = runComponents env rest (runComponent env c st).1 := by
      simp only [runComponents, hskip]
      simp
    rw [hloop]
    obtain ⟨h1, h2, h3, h4, h5, h6, h7, h8⟩ := hc
    obtain ⟨g1, g2, g3, g4, g5, g6, g7⟩ := hrest
    refine ⟨?_, ?_, ?_, ?_, ?_, ?_, ?_⟩
    · rw [g1, h2]; simp
    · rw [g2, h4]; simp [List.length_cons]; omega
    · rw [g3, h5]; simp
    · rw [g4, h6]; simp [Bool.or_assoc]
    · rw [g5, h7]; simp [List.foldl_cons]
    · rw [g6, h8]; simp [foldFinalizers, List.foldl_cons]
    · rw [g7, h3]

/-- Invariant of the iterated `RequeueAfter` merge: the running value is
either the seed or a nonzero element seen so far, it never grows past a
nonzero seed, and it is a lower bound of every nonzero element. -/
theorem foldl_mergeAfter_invariant (l : List Nat) : ∀ a : Nat,
    (l.foldl mergeAfter a = a ∨ (l.foldl mergeAfter a ∈ l ∧ l.foldl mergeAfter a ≠ 0)) ∧
    (a ≠ 0 → l.foldl mergeAfter a ≤ a ∧ l.foldl mergeAfter a ≠ 0) ∧
    (∀ x ∈ l, x ≠ 0 → l.foldl mergeAfter a ≤ x ∧ l.foldl mergeAfter a ≠ 0) ∧
    ((∀ x ∈ l, x = 0) → l.foldl mergeAfter a = a) := by
  induction l with
  | nil => intro a; simp
  | cons b l ih =>
    intro a
    have hab : mergeAfter a b = a ∨ (mergeAfter a b = b ∧ b ≠ 0) := by
      unfold mergeAfter; split_ifs with hc
      · exact Or.inr ⟨rfl, hc.1⟩
      · exact Or.inl rfl
    have hle : a ≠ 0 → mergeAfter a b ≤ a ∧ mergeAfter a b ≠ 0 := by
      intro ha; unfold mergeAfter; split_ifs with hc
      · rcases hc.2 with h0 | hlt
        · exact absurd h0 ha
        · exact ⟨Nat.le_of_lt hlt, hc.1⟩
      · exact ⟨Nat.le_refl a, ha⟩
    have hleb : b ≠ 0 → mergeAfter a b ≤ b ∧ mergeAfter a b ≠ 0 := by
      intro hb; unfold mergeAfter; split_ifs with hc
      · exact ⟨Nat.le_refl b, hb⟩
      · have : ¬(a = 0 ∨ a > b) := fun h => hc ⟨hb, h⟩
        push_neg at this
        exact ⟨this.2, this.1⟩
    obtain ⟨ih1, ih2, ih3, ih4⟩ := ih (mergeAfter a b)
    simp only [List.foldl_cons]
    refine ⟨?_, ?_, ?_, ?_⟩
    · rcases ih1 with h | h
      · rw [h]
        rcases hab with h2 | h2
        · exact Or.inl h2
        · rw [h2.1]
          exact Or.inr ⟨List.mem_cons_self b l, h2.2⟩
      · exact Or.inr ⟨List.mem_cons_of_mem b h.1, h.2⟩
    · intro ha
      obtain ⟨hm1, hm2⟩ := hle ha
      obtain ⟨hr1, hr2⟩ := ih2 hm2
      exact ⟨Nat.le_trans hr1 hm1, hr2⟩
    · intro x hx hx0
      rcases List.mem_cons.mp hx with rfl | hx
      · obtain ⟨hm1, hm2⟩ := hleb hx0
        obtain ⟨hr1, hr2⟩ := ih2 hm2
        exact ⟨Nat.le_trans hr1 hm1, hr2⟩
      · exact ih3 x hx hx0
    · intro hall
      have hb0 : b = 0 := hall b (List.mem_cons_self b l)
      have hab0 : mergeAfter a b = a := by unfold mergeAfter; simp [hb0]
      rw [hab0] at ih4 ⊢
      exact ih4 (fun x hx => hall x (List.mem_cons_of_mem b hx))

theorem mem_addFinalizer_self (fs : List String) (n : String) : n ∈ addFinalizer fs n := by
  unfold addFinalizer; split <;> simp_all

theorem mem_addFinalizer_of_mem (fs : List String) (n x : String) (h : x ∈ fs) : x ∈ addFinalizer fs n := by
  unfold addFinalizer; split <;> simp_all

theorem foldFinalizers_mono (env : PassEnv) (comps : List ComponentModel) :
    ∀ fs : List String, ∀ x ∈ fs, x ∈ foldFinalizers env comps fs := by
  induction comps with
  | nil => intro fs x hx; simpa [foldFinalizers] using hx
  | cons c rest ih =>
    intro fs x hx
    simp only [foldFinalizers, List.foldl_cons]
    apply ih
    split
    · exact mem_addFinalizer_of_mem _ _ _ hx
    · exact hx

theorem foldFinalizers_mem (env : PassEnv) (comps : List ComponentModel) (c : ComponentModel)
    (hc : c ∈ comps) (hf : c.hasFinalizer = true) :
    ∀ fs : List String, finalizerNameOf env c ∈ foldFinalizers env comps fs := by
  induction comps with
  | nil => cases hc
  | cons b rest ih =>
    intro fs
    rcases List.mem_cons.mp hc with rfl | hc2
    · simp only [foldFinalizers, List.foldl_cons, hf, if_true]
      exact foldFinalizers_mono env rest _ _ (mem_addFinalizer_self fs (finalizerNameOf env c))
    · exact ih hc2 _

/-- When a reached component requests `SkipRemaining`, the loop stops
right after it: exactly the components up to and including it are
invoked. -/
theorem runComponents_skip_invoked (env : PassEnv) (c : ComponentModel) (post : List ComponentModel)
    (h : env.alive = true) (hc : c.reconcileResult.skipRemaining = true) :
    ∀ (pre : List ComponentModel) (st : PassState), (∀ x ∈ pre, x.reconcileResult.skipRemaining = false) →
    (runComponents env (pre ++ c :: post) st).invoked = st.invoked ++ (pre ++ [c]).map (fun x => x.name) := by
  intro pre
  induction pre with
  | nil =>
    intro st _
    have hspec := runComponent_alive_spec env c st h
    have hskip : (runComponent env c st).2.skipRemaining = true := by rw [hspec.1]; exact hc
    simp only [List.nil_append, runComponents, hskip, if_true]
    simpa using hspec.2.1
  | cons b rest ih =>
    intro st hpre
    have hspec := runComponent_alive_spec env b st h
    have hskip : (runComponent env b st).2.skipRemaining = false := by
      rw [hspec.1]; exact hpre b (List.mem_cons_self b rest)
    have hloop : runComponents env ((b :: rest) ++ c :: post) st
        = runComponents env (rest ++ c :: post) (runComponent env b st).1 := by
      simp only [List.cons_append, runComponents, hskip]
      simp
    rw [hloop, ih _ (fun x hx => hpre x (List.mem_cons_of_mem b hx)), hspec.2.1]
    simp

/-! ## Final error construction lemmas -/

theorem multiErrorBody_all_some (errs : List (Option String)) (h : ∀ e ∈ errs, e.isSome) :
    ∃ body, multiErrorBody errs = .ok body ∧
      ∀ m : String, some m ∈ errs → ∃ pre post, body = pre ++ ("  " ++ m ++ "\n") ++ post := by
  induction errs with
  | nil => exact ⟨"", rfl, by simp⟩
  | cons e rest ih =>
    obtain ⟨m0, hm0⟩ := Option.isSome_iff_exists.mp (h e (List.mem_cons_self e rest))
    obtain ⟨body, hbody, hin⟩ := ih (fun x hx => h x (List.mem_cons_of_mem e hx))
    refine ⟨"  " ++ m0 ++ "\n" ++ body, ?_, ?_⟩
    · subst hm0
      simp only [multiErrorBody, errString, hbody]
    · intro m hm
      rcases List.mem_cons.mp hm with heq | hmem
      · rw [hm0] at heq
        obtain rfl : m0 = m := by injection heq.symm
        exact ⟨"", body, by simp⟩
      · obtain ⟨pre, post, hpp⟩ := hin m hmem
        exact ⟨"  " ++ m0 ++ "\n" ++ pre, post, by rw [hpp]; simp [String.append_assoc]⟩

theorem buildFinalError_mentions (errs : List (Option String)) (hall : ∀ e ∈ errs, e.isSome)
    (m : String) (hm : some m ∈ errs) :
    ∃ s pre post, buildFinalError errs = .ok (some s) ∧ s = pre ++ m ++ post := by
  cases errs with
  | nil => cases hm
  | cons e rest =>
    cases rest with
    | nil =>
      have he : e = some m := (List.mem_singleton.mp hm).symm
      exact ⟨m, "", "", by simp [buildFinalError, he], by simp⟩
    | cons e2 rest2 =>
      obtain ⟨body, hbody, hin⟩ := multiErrorBody_all_some (e :: e2 :: rest2) hall
      obtain ⟨pre, post, hpp⟩ := hin m hm
      refine ⟨"Multiple errors:\n" ++ body, "Multiple errors:\n" ++ pre ++ "  ", "\n" ++ post, ?_, ?_⟩
      · simp [buildFinalError, hbody]
      · rw [hpp]
        simp [String.append_assoc]

/-! ## Claim theorems -/

/-- **C6**: at the end of a pass the Engine builds the returned error from
the accumulated per-Step errors: zero errors yield a nil error; exactly
one yields that error itself; several yield one combined error whose
message starts with "Multiple errors:" and lists each accumulated error
on its own indented line. -/
theorem c6_final_error_construction (errs : List (Option String)) (hall : ∀ e ∈ errs, e.isSome) :
    (errs = [] → buildFinalError errs = .ok none) ∧
    (∀ e, errs = [e] → buildFinalError errs = .ok e) ∧
    (2 ≤ errs.length →
      ∃ body, buildFinalError errs = .ok (some ("Multiple errors:\n" ++ body)) ∧
        ∀ m, some m ∈ errs → ∃ pre post, body = pre ++ ("  " ++ m ++ "\n") ++ post) := by
  refine ⟨?_, ?_, ?_⟩
  · intro h; subst h; rfl
  · intro e h; subst h; rfl
  · intro hlen
    cases errs with
    | nil => simp at hlen
    | cons e rest =>
      cases rest with
      | nil => simp at hlen
      | cons e2 rest2 =>
        obtain ⟨body, hbody, hin⟩ := multiErrorBody_all_some (e :: e2 :: rest2) hall
        exact ⟨body, by simp [buildFinalError, hbody], hin⟩

/-- Witness for C6 at the concrete error list `[some "x", some "y"]`. -/
theorem c6_witness :
    (∀ e ∈ ([some "x", some "y"] : List (Option String)), e.isSome) ∧
    ((([some "x", some "y"] : List (Option String)) = [] →
        buildFinalError [some "x", some "y"] = .ok none) ∧
      (∀ e, ([some "x", some "y"] : List (Option String)) = [e] →
        buildFinalError [some "x", some "y"] = .ok e) ∧
      (2 ≤ ([some "x", some "y"] : List (Option String)).length →
        ∃ body, buildFinalError [some "x", some "y"] = .ok (some ("Multiple errors:\n" ++ body)) ∧
          ∀ m, some m ∈ ([some "x", some "y"] : List (Option String)) →
            ∃ pre post, body = pre ++ ("  " ++ m ++ "\n") ++ post)) :=
  ⟨by decide, c6_final_error_construction [some "x", some "y"] (by decide)⟩

/-- **C10**: `ContextData.GetString` never reports absence through its
boolean: a missing key (or a key holding a non-string value) makes the
unchecked type assertion panic, and no call ever returns `(s, false)`. -/
theorem c10_getString_panics (d : List (String × GoValue)) (key : String) :
    (d.find? (fun p => p.1 = key) = none → GetString d key = .panics) ∧
    (∀ hit, d.find? (fun p => p.1 = key) = some hit → hit.2 = .nonString → GetString d key = .panics) ∧
    (∀ s : String, GetString d key ≠ .ok (s, false)) := by
  refine ⟨?_, ?_, ?_⟩
  · intro h; simp [GetString, h]
  · intro hit hfind hval
    obtain ⟨k, v⟩ := hit
    cases hval
    simp [GetString, hfind]
  · intro s
    unfold GetString
    cases hfind : d.find? (fun p => p.1 = key) with
    | none => simp
    | some hit =>
      obtain ⟨k, v⟩ := hit
      cases v <;> simp

/-- Witness for C10: a missing key and a non-string value both panic on
concrete inputs. -/
theorem c10_witness :
    ([("a", GoValue.str "v")].find? (fun p => p.1 = "b") = none → GetString [("a", GoValue.str "v")] "b" = .panics) ∧
    GetString [("a", GoValue.str "v")] "b" = .panics ∧
    GetString [("a", GoValue.nonString)] "a" = .panics :=
  ⟨(c10_getString_panics [("a", GoValue.str "v")] "b").1,
   (c10_getString_panics [("a", GoValue.str "v")] "b").1 (by decide),
   (c10_getString_panics [("a", GoValue.nonString)] "a").2.1 ("a", GoValue.nonString) (by decide) rfl⟩

/-- **C5**: for the Results merged during one pass over a live resource,
the merged Requeue flag is the OR of the Steps' flags, the merged
RequeueAfter is the minimum over all nonzero RequeueAfter values (zero
when none is set), and a Step returning SkipRemaining stops invocation of
the remaining Steps of the pass (exactly the Steps up to and including it
run). -/
theorem c5_result_merge (env : PassEnv) (comps : List ComponentModel)
    (fs0 : List String) (cs0 : List Condition) (halive : env.alive = true) :
    ((∀ x ∈ comps, x.reconcileResult.skipRemaining = false) →
      (runReconcilePass env comps fs0 cs0).requeue = comps.any (fun c => c.reconcileResult.requeue) ∧
      (((runReconcilePass env comps fs0 cs0).requeueAfter = 0 ∧
          ∀ c ∈ comps, c.reconcileResult.requeueAfter = 0) ∨
        ((runReconcilePass env comps fs0 cs0).requeueAfter ≠ 0 ∧
          (∃ c ∈ comps, c.reconcileResult.requeueAfter = (runReconcilePass env comps fs0 cs0).requeueAfter) ∧
          ∀ c ∈ comps, c.reconcileResult.requeueAfter ≠ 0 →
            (runReconcilePass env comps fs0 cs0).requeueAfter ≤ c.reconcileResult.requeueAfter))) ∧
    (∀ pre c post, comps = pre ++ c :: post →
      (∀ x ∈ pre, x.reconcileResult.skipRemaining = false) →
      c.reconcileResult.skipRemaining = true →
      (runReconcilePass env comps fs0 cs0).invoked = (pre ++ [c]).map (fun x => x.name)) := by
  constructor
  · intro hns
    obtain ⟨h1, h2, h3, h4, h5, h6, h7⟩ :=
      runComponents_alive_noskip env comps { finalizers := fs0, conds := cs0 } halive hns
    constructor
    · rw [runReconcilePass, h4]
      simp
    · rw [runReconcilePass, h5]
      dsimp only
      have hfold : comps.foldl (fun a c => mergeAfter a c.reconcileResult.requeueAfter) 0 =
          (comps.map (fun c => c.reconcileResult.requeueAfter)).foldl mergeAfter 0 := by
        rw [List.foldl_map]
      rw [hfold]
      obtain ⟨i1, i2, i3, i4⟩ :=
        foldl_mergeAfter_invariant (comps.map (fun c => c.reconcileResult.requeueAfter)) 0
      by_cases hall : ∀ x ∈ comps.map (fun c => c.reconcileResult.requeueAfter), x = 0
      · exact Or.inl ⟨i4 hall, fun c hc => hall _ (List.mem_map_of_mem _ hc)⟩
      · push_neg at hall
        obtain ⟨x, hxmem, hx0⟩ := hall
        obtain ⟨hle, hne⟩ := i3 x hxmem hx0
        have hmem : (comps.map (fun c => c.reconcileResult.requeueAfter)).foldl mergeAfter 0 ∈
            comps.map (fun c => c.reconcileResult.requeueAfter) := by
          rcases i1 with h | h
          · exact absurd h hne
          · exact h.1
        obtain ⟨c, hc, hcval⟩ := List.mem_map.mp hmem
        exact Or.inr ⟨hne, ⟨c, hc, hcval⟩,
          fun c2 hc2 hc20 => (i3 _ (List.mem_map_of_mem _ hc2) hc20).1⟩
  · intro pre c post hcomps hpre hcskip
    subst hcomps
    rw [runReconcilePass,
      runComponents_skip_invoked env c post halive hcskip pre { finalizers := fs0, conds := cs0 } hpre]
    simp

/-- Witness for C5 with the spec's own example: RequeueAfter values of 30
and 10 merge to 10, Requeue=true from one Step dominates. -/
theorem c5_witness :
    (∀ x ∈ [({ name := "a", reconcileResult := { requeue := true, requeueAfter := 30 } } : ComponentModel),
            { name := "b", reconcileResult := { requeueAfter := 10 } }],
        x.reconcileResult.skipRemaining = false) ∧
    ((runReconcilePass { } [{ name := "a", reconcileResult := { requeue := true, requeueAfter := 30 } },
        { name := "b", reconcileResult := { requeueAfter := 10 } }] [] []).requeue =
      List.any [({ name := "a", reconcileResult := { requeue := true, requeueAfter := 30 } } : ComponentModel),
        { name := "b", reconcileResult := { requeueAfter := 10 } }] (fun c => c.reconcileResult.requeue) ∧
      (((runReconcilePass { } [{ name := "a", reconcileResult := { requeue := true, requeueAfter := 30 } },
          { name := "b", reconcileResult := { requeueAfter := 10 } }] [] []).requeueAfter = 0 ∧
          ∀ c ∈ [({ name := "a", reconcileResult := { requeue := true, requeueAfter := 30 } } : ComponentModel),
              { name := "b", reconcileResult := { requeueAfter := 10 } }],
            c.reconcileResult.requeueAfter = 0) ∨
        ((runReconcilePass { } [{ name := "a", reconcileResult := { requeue := true, requeueAfter := 30 } },
            { name := "b", reconcileResult := { requeueAfter := 10 } }] [] []).requeueAfter ≠ 0 ∧
          (∃ c ∈ [({ name := "a", reconcileResult := { requeue := true, requeueAfter := 30 } } : ComponentModel),
              { name := "b", reconcileResult := { requeueAfter := 10 } }],
            c.reconcileResult.requeueAfter =
              (runReconcilePass { } [{ name := "a", reconcileResult := { requeue := true, requeueAfter := 30 } },
                { name := "b", reconcileResult := { requeueAfter := 10 } }] [] []).requeueAfter) ∧
          ∀ c ∈ [({ name := "a", reconcileResult := { requeue := true, requeueAfter := 30 } } : ComponentModel),
              { name := "b", reconcileResult := { requeueAfter := 10 } }],
            c.reconcileResult.requeueAfter ≠ 0 →
              (runReconcilePass { } [{ name := "a", reconcileResult := { requeue := true, requeueAfter := 30 } },
                { name := "b", reconcileResult := { requeueAfter := 10 } }] [] []).requeueAfter ≤
                c.reconcileResult.requeueAfter))) ∧
    (runReconcilePass { } [{ name := "a", reconcileResult := { requeue := true, requeueAfter := 30 } },
      { name := "b", reconcileResult := { requeueAfter := 10 } }] [] []).requeueAfter = 10 :=
  ⟨by decide,
   (c5_result_merge { } [{ name := "a", reconcileResult := { requeue := true, requeueAfter := 30 } },
      { name := "b", reconcileResult := { requeueAfter := 10 } }] [] [] rfl).1 (by decide),
   by decide⟩

/-- A pass environment for exercising the finalizer behaviour: live
resource, accessible conditions, a concrete finalizer base name. -/
def c1Env : PassEnv := { alive := true, condsAccessible := true, finalizerBase := "testapp.example.com/" }

/-- A finalizer-capable component whose reconcile fails. -/
def c1Comp : ComponentModel := { name := "comp", hasFinalizer := true, reconcileErr := some "boom" }

/-- **C1** is false on the code: on a live resource the Engine adds the
finalizer marker right after `Reconcile` without checking its error, so a
component whose reconcile failed (its wrapped error is recorded in the
pass) still gets its marker added. -/
theorem c1_counterexample :
    c1Comp.reconcileErr = some "boom" ∧
    (runReconcilePass c1Env [c1Comp] [] []).errors = [some "error in comp component reconcile: boom"] ∧
    (runReconcilePass c1Env [c1Comp] [] []).finalizers = ["testapp.example.com/comp"] := by
  refine ⟨rfl, ?_, ?_⟩ <;> decide

/-- **C1** (amended): during a reconcile pass over a live resource, the
Engine adds the finalizer marker of every finalizer-capable component the
loop reaches, regardless of whether that component's reconcile returned
an error. -/
theorem c1_finalizer_added_when_alive (env : PassEnv) (comps : List ComponentModel)
    (c : ComponentModel) (fs0 : List String) (cs0 : List Condition)
    (halive : env.alive = true)
    (hns : ∀ x ∈ comps, x.reconcileResult.skipRemaining = false)
    (hc : c ∈ comps) (hf : c.hasFinalizer = true) :
    finalizerNameOf env c ∈ (runReconcilePass env comps fs0 cs0).finalizers := by
  obtain ⟨_, _, _, _, _, h6, _⟩ :=
    runComponents_alive_noskip env comps { finalizers := fs0, conds := cs0 } halive hns
  rw [runReconcilePass, h6]
  exact foldFinalizers_mem env comps c hc hf _

/-- Witness for the amended C1: the failing finalizer-capable component
of the counterexample gets its marker. -/
theorem c1_witness :
    (c1Env.alive = true ∧ (∀ x ∈ [c1Comp], x.reconcileResult.skipRemaining = false) ∧
      c1Comp ∈ [c1Comp] ∧ c1Comp.hasFinalizer = true) ∧
    finalizerNameOf c1Env c1Comp ∈ (runReconcilePass c1Env [c1Comp] [] []).finalizers :=
  ⟨⟨rfl, by decide, by decide, rfl⟩,
   c1_finalizer_added_when_alive c1Env [c1Comp] c1Comp [] [] rfl (by decide) (by decide) rfl⟩

/-- A pass environment whose object does not support status conditions,
so every `Conditions.Flush` fails. -/
def c2Env : PassEnv := { alive := true, condsAccessible := false }

def c2CompA : ComponentModel := { name := "a" }

def c2CompB : ComponentModel := { name := "b" }

/-- **C2** is false on the code: `Conditions.Flush` is invoked by
`mergeResult` once per component (twice in a two-component pass, not
exactly once after all Steps), and a flush failure in a pass whose single
Step succeeded yields a nil Engine-level error (the code wraps the
Step's nil error instead of the flush error). -/
theorem c2_counterexample :
    (runReconcilePass c2Env [c2CompA, c2CompB] [] []).flushCount = 2 ∧
    c2Env.condsAccessible = false ∧
    passFinalError c2Env [c2CompA] [] [] = .ok none := by
  refine ⟨?_, rfl, ?_⟩ <;> decide

/-- **C2** (amended): the condition buffer's flush runs once per Step —
inside the merge of each Step's result — rather than exactly once after
all Steps; a flush failure is appended to the aggregate error list only
as `errors.Wrapf` of the Step's own error, so when every Step of the
pass succeeded the appended entries are all nil and a single-Step pass
returns a nil Engine-level error despite the flush failures. -/
theorem c2_flush_per_step (env : PassEnv) (comps : List ComponentModel)
    (fs0 : List String) (cs0 : List Condition)
    (halive : env.alive = true)
    (hns : ∀ x ∈ comps, x.reconcileResult.skipRemaining = false) :
    (runReconcilePass env comps fs0 cs0).flushCount = comps.length ∧
    (env.condsAccessible = false → (∀ c ∈ comps, c.reconcileErr = none) →
      (runReconcilePass env comps fs0 cs0).errors = List.replicate comps.length none ∧
      (comps.length = 1 → passFinalError env comps fs0 cs0 = .ok none)) := by
  obtain ⟨_, h2, h3, _, _, _, _⟩ :=
    runComponents_alive_noskip env comps { finalizers := fs0, conds := cs0 } halive hns
  constructor
  · rw [runReconcilePass, h2]
    simp
  · intro hacc herrs
    have hmap : comps.map (stepErrors env) = comps.map (fun _ => [none]) := by
      apply List.map_congr_left
      intro c hc
      simp [stepErrors, mergeStepErrors, hacc, herrs c hc, wrapf]
    have hflat : (comps.map (fun _ => ([none] : List (Option String)))).flatten =
        List.replicate comps.length none := by
      induction comps with
      | nil => rfl
      | cons x xs ih => simp_all [List.replicate_succ]
    have herr : (runReconcilePass env comps fs0 cs0).errors = List.replicate comps.length none := by
      rw [runReconcilePass, h3, hmap, hflat]
      simp
    refine ⟨herr, ?_⟩
    intro hlen
    rw [passFinalError, herr, hlen]
    rfl

/-- Witness for the amended C2 on a concrete single-component pass with
failing flushes. -/
theorem c2_witness :
    (c2Env.alive = true ∧ (∀ x ∈ [c2CompA], x.reconcileResult.skipRemaining = false) ∧
      c2Env.condsAccessible = false ∧ (∀ c ∈ [c2CompA], c.reconcileErr = none)) ∧
    ((runReconcilePass c2Env [c2CompA] [] []).flushCount = [c2CompA].length ∧
      (c2Env.condsAccessible = false → (∀ c ∈ [c2CompA], c.reconcileErr = none) →
        (runReconcilePass c2Env [c2CompA] [] []).errors = List.replicate [c2CompA].length none ∧
        ([c2CompA].length = 1 → passFinalError c2Env [c2CompA] [] [] = .ok none))) :=
  ⟨⟨rfl, by decide, rfl, by decide⟩,
   c2_flush_per_step c2Env [c2CompA] [] [] rfl (by decide)⟩

theorem stepErrors_flushOk_err (env : PassEnv) (c : ComponentModel) (m : String)
    (hfl : env.condsAccessible = true) (herr : c.reconcileErr = some m) :
    stepErrors env c = [some ("error in " ++ c.name ++ " component reconcile: " ++ m)] := by
  simp [stepErrors, mergeStepErrors, hfl, herr, wrapf]
  simp only [String.append_assoc]
  rw [← String.append_assoc " component reconcile" ": " m]
  rfl

theorem stepErrors_flushOk_none (env : PassEnv) (c : ComponentModel)
    (hfl : env.condsAccessible = true) (herr : c.reconcileErr = none) :
    stepErrors env c = [] := by
  simp [stepErrors, mergeStepErrors, hfl, herr]

theorem stepErrors_all_some (env : PassEnv) (comps : List ComponentModel)
    (hfl : env.condsAccessible = true) :
    ∀ e ∈ (comps.map (stepErrors env)).flatten, e.isSome := by
  intro e he
  obtain ⟨l, hl, hel⟩ := List.mem_flatten.mp he
  obtain ⟨c, hc, rfl⟩ := List.mem_map.mp hl
  cases hcerr : c.reconcileErr with
  | none =>
    rw [stepErrors_flushOk_none env c hfl hcerr] at hel
    cases hel
  | some m =>
    rw [stepErrors_flushOk_err env c m hfl hcerr] at hel
    rw [List.mem_singleton.mp hel]
    rfl

theorem mem_stepErrors_flatten (env : PassEnv) (comps : List ComponentModel)
    (c : ComponentModel) (m : String) (hfl : env.condsAccessible = true)
    (hc : c ∈ comps) (herr : c.reconcileErr = some m) :
    some ("error in " ++ c.name ++ " component reconcile: " ++ m) ∈ (comps.map (stepErrors env)).flatten := by
  apply List.mem_flatten.mpr
  refine ⟨stepErrors env c, List.mem_map_of_mem _ hc, ?_⟩
  rw [stepErrors_flushOk_err env c m hfl herr]
  exact List.mem_singleton.mpr rfl

/-- **C3**: when some Step's reconcile fails during a pass over a live
resource (no Step cutting the pass short via SkipRemaining, and the
object supporting conditions so the flush succeeds), every Step is still
invoked, the failing Step's wrapped error is recorded in the aggregate
list, and the final error of the pass is non-nil and mentions the failing
Step by name ("error in {name} component reconcile"). -/
theorem c3_partial_failure_isolation (env : PassEnv) (comps : List ComponentModel)
    (c : ComponentModel) (m : String) (fs0 : List String) (cs0 : List Condition)
    (halive : env.alive = true) (hfl : env.condsAccessible = true)
    (hns : ∀ x ∈ comps, x.reconcileResult.skipRemaining = false)
    (hc : c ∈ comps) (herr : c.reconcileErr = some m) :
    (runReconcilePass env comps fs0 cs0).invoked = comps.map (fun x => x.name) ∧
    some ("error in " ++ c.name ++ " component reconcile: " ++ m) ∈ (runReconcilePass env comps fs0 cs0).errors ∧
    (∃ s pre post, passFinalError env comps fs0 cs0 = .ok (some s) ∧
      s = pre ++ ("error in " ++ c.name ++ " component reconcile: " ++ m) ++ post) := by
  obtain ⟨h1, _, h3, _, _, _, _⟩ :=
    runComponents_alive_noskip env comps { finalizers := fs0, conds := cs0 } halive hns
  refine ⟨?_, ?_, ?_⟩
  · rw [runReconcilePass, h1]
    simp
  · rw [runReconcilePass, h3]
    simp only [List.mem_append]
    exact Or.inr (mem_stepErrors_flatten env comps c m hfl hc herr)
  · have herrs : (runReconcilePass env comps fs0 cs0).errors = (comps.map (stepErrors env)).flatten := by
      rw [runReconcilePass, h3]
      simp
    rw [passFinalError, herrs]
    exact buildFinalError_mentions _ (stepErrors_all_some env comps hfl) _
      (mem_stepErrors_flatten env comps c m hfl hc herr)

/-- Witness for C3 with the spec's example: Steps 1, 2, 3 with Step 2
erroring; Steps 1 and 3 still run and the pass error names step2. -/
theorem c3_witness :
    ((∀ x ∈ [({ name := "step1" } : ComponentModel), { name := "step2", reconcileErr := some "boom" },
        { name := "step3" }], x.reconcileResult.skipRemaining = false) ∧
      ({ name := "step2", reconcileErr := some "boom" } : ComponentModel) ∈
        [({ name := "step1" } : ComponentModel), { name := "step2", reconcileErr := some "boom" },
          { name := "step3" }]) ∧
    ((runReconcilePass { } [{ name := "step1" }, { name := "step2", reconcileErr := some "boom" },
        { name := "step3" }] [] []).invoked =
      List.map (fun x => x.name) [({ name := "step1" } : ComponentModel),
        { name := "step2", reconcileErr := some "boom" }, { name := "step3" }] ∧
    some ("error in " ++ "step2" ++ " component reconcile: " ++ "boom") ∈
      (runReconcilePass { } [{ name := "step1" }, { name := "step2", reconcileErr := some "boom" },
        { name := "step3" }] [] []).errors ∧
    (∃ s pre post,
      passFinalError { } [{ name := "step1" }, { name := "step2", reconcileErr := some "boom" },
        { name := "step3" }] [] [] = .ok (some s) ∧
      s = pre ++ ("error in " ++ "step2" ++ " component reconcile: " ++ "boom") ++ post)) :=
  ⟨⟨by decide, by decide⟩,
   by
    have h := c3_partial_failure_isolation { } [{ name := "step1" },
      { name := "step2", reconcileErr := some "boom" }, { name := "step3" }]
      { name := "step2", reconcileErr := some "boom" } "boom" [] [] rfl rfl
      (by decide) (by decide) rfl
    exact h⟩

/-- **C4**: the delete flow of the Declarative Apply Step.  With a
declared condition type: an absent target succeeds with condition True
("does not exist" reason) and no delete call; a present target whose
controller owner reference does not refer to the Managed Resource
(equivalently — last clause — whose group, kind or name differs) is left
untouched with condition True ("not owned"); an owned target gets a
background-propagation delete, and both a successful delete and a
NotFound delete outcome succeed with condition True ("does not
exist"). -/
theorem c4_delete_flow (ct kind ns objName ownerName : String) (gvk : Option GroupVersionKind)
    (hct : ct ≠ "") :
    (∀ del, reconcileDelete ct kind ns objName ownerName gvk .notFound del =
      { conditions := [⟨ct, .isTrue, "UpstreamDoesNotExist",
          "Upstream " ++ kind ++ " " ++ objName ++ " does not exist"⟩],
        deleteIssued := none, result := {}, err := none }) ∧
    (∀ refs r del, getControllerOf refs = some r → referSameObject r gvk ownerName = false →
      reconcileDelete ct kind ns objName ownerName gvk (.found refs) del =
      { conditions := [⟨ct, .isTrue, "UpstreamNotOwned",
          "Upstream " ++ kind ++ " " ++ objName ++ " is not owned by " ++ ownerName⟩],
        deleteIssued := none, result := {}, err := none }) ∧
    (∀ refs r del, getControllerOf refs = some r → referSameObject r gvk ownerName = true →
      (reconcileDelete ct kind ns objName ownerName gvk (.found refs) del).deleteIssued = some .background ∧
      ((del = .deleted ∨ del = .notFound) →
        reconcileDelete ct kind ns objName ownerName gvk (.found refs) del =
        { conditions := [⟨ct, .isTrue, "UpstreamDoesNotExist",
            "Upstream " ++ kind ++ " " ++ objName ++ " does not exist"⟩],
          deleteIssued := some .background, result := {}, err := none })) ∧
    (∀ r : OwnerReference, ∀ gv : String × String, ∀ g : GroupVersionKind,
      parseGroupVersion r.apiVersion = some gv → gvk = some g →
      (referSameObject r gvk ownerName = true ↔
        (gv.1 = g.group ∧ r.kind = g.kind ∧ r.name = ownerName))) := by
  refine ⟨?_, ?_, ?_, ?_⟩
  · intro del
    simp [reconcileDelete, hct]
  · intro refs r del hcr hns2
    simp [reconcileDelete, hcr, hns2, hct]
  · intro refs r del hcr howned
    constructor
    · simp only [reconcileDelete, hcr, howned, if_true]
      cases del <;> rfl
    · intro hdel
      rcases hdel with rfl | rfl <;> simp [reconcileDelete, hcr, howned, hct]
  · intro r gv g hparse hg
    subst hg
    simp [referSameObject, hparse, and_assoc]

/-- Witness for C4 on concrete inputs: one absent target, one target owned
by someone else, one owned target. -/
theorem c4_witness :
    ("MyCond" : String) ≠ "" ∧
    reconcileDelete "MyCond" "Deployment" "ns" "obj" "owner"
        (some ⟨"apps.example.com", "v1", "MyApp"⟩) .notFound .deleted =
      { conditions := [⟨"MyCond", .isTrue, "UpstreamDoesNotExist", "Upstream Deployment obj does not exist"⟩],
        deleteIssued := none, result := {}, err := none } ∧
    reconcileDelete "MyCond" "Deployment" "ns" "obj" "owner"
        (some ⟨"apps.example.com", "v1", "MyApp"⟩)
        (.found [⟨"apps.example.com/v1", "MyApp", "other", true⟩]) .deleted =
      { conditions := [⟨"MyCond", .isTrue, "UpstreamNotOwned", "Upstream Deployment obj is not owned by owner"⟩],
        deleteIssued := none, result := {}, err := none } ∧
    reconcileDelete "MyCond" "Deployment" "ns" "obj" "owner"
        (some ⟨"apps.example.com", "v1", "MyApp"⟩)
        (.found [⟨"apps.example.com/v1", "MyApp", "owner", true⟩]) .notFound =
      { conditions := [⟨"MyCond", .isTrue, "UpstreamDoesNotExist", "Upstream Deployment obj does not exist"⟩],
        deleteIssued := some .background, result := {}, err := none } := by
  have h := c4_delete_flow "MyCond" "Deployment" "ns" "obj" "owner"
    (some ⟨"apps.example.com", "v1", "MyApp"⟩) (by decide)
  refine ⟨by decide, ?_, ?_, ?_⟩
  · have := h.1 .deleted
    simpa using this
  · have := h.2.1 [⟨"apps.example.com/v1", "MyApp", "other", true⟩]
      ⟨"apps.example.com/v1", "MyApp", "other", true⟩ .deleted (by decide) (by decide)
    simpa using this
  · have := (h.2.2.1 [⟨"apps.example.com/v1", "MyApp", "owner", true⟩]
      ⟨"apps.example.com/v1", "MyApp", "owner", true⟩ .notFound (by decide) (by decide)).2 (Or.inr rfl)
    simpa using this

theorem any_map_poly {α β : Type} (l : List α) (f : α → β) (p : β → Bool) :
    (l.map f).any p = l.any (fun a => p (f a)) := by
  induction l <;> simp_all

theorem mapInsert_of_not_mem {α : Type} (m : List (String × α)) (k : String) (v : α)
    (h : ∀ p ∈ m, p.1 ≠ k) : mapInsert m k v = m ++ [(k, v)] := by
  unfold mapInsert
  have hfalse : m.any (fun p => p.1 = k) = false := by
    rw [List.any_eq_false]
    intro p hp
    simpa using h p hp
  simp [hfalse]

theorem foldl_mapInsert_eq_append (keys : List String) :
    ∀ acc : List (String × ConditionStatus),
    (keys.map conditionNameFor).Nodup →
    (∀ key ∈ keys, ∀ p ∈ acc, p.1 ≠ conditionNameFor key) →
    keys.foldl (fun m key => mapInsert m (conditionNameFor key) (desiredStatusFor key)) acc =
      acc ++ keys.map (fun key => (conditionNameFor key, desiredStatusFor key)) := by
  induction keys with
  | nil => intro acc _ _; simp
  | cons k rest ih =>
    intro acc hnd hdisj
    simp only [List.map_cons, List.nodup_cons] at hnd
    have hins : mapInsert acc (conditionNameFor k) (desiredStatusFor k) =
        acc ++ [(conditionNameFor k, desiredStatusFor k)] :=
      mapInsert_of_not_mem acc _ _ (fun p hp => hdisj k (List.mem_cons_self k rest) p hp)
    simp only [List.foldl_cons, hins]
    rw [ih (acc ++ [(conditionNameFor k, desiredStatusFor k)]) hnd.2]
    · simp
    · intro key hkey p hp
      rcases List.mem_append.mp hp with hp1 | hp2
      · exact hdisj key (List.mem_cons_of_mem k hkey) p hp1
      · have hpk2 : p = (conditionNameFor k, desiredStatusFor k) := List.mem_singleton.mp hp2
        rw [hpk2]
        dsimp only
        intro hcontra
        apply hnd.1
        rw [hcontra]
        exact List.mem_map_of_mem conditionNameFor hkey

/-- With no duplicate (trimmed) key names, the `readyConditions` map of
`NewReadyStatusComponent` is exactly the keys paired with their desired
statuses. -/
theorem parseReadyKeys_eq_map (keys : List String) (hnd : (keys.map conditionNameFor).Nodup) :
    parseReadyKeys keys = keys.map (fun key => (conditionNameFor key, desiredStatusFor key)) := by
  have := foldl_mapInsert_eq_append keys [] hnd (by simp)
  simpa [parseReadyKeys] using this

theorem joinComma_mentions (keys : List String) (key : String) (h : key ∈ keys) :
    ∃ pre post, joinComma keys = pre ++ key ++ post := by
  induction keys with
  | nil => cases h
  | cons k rest ih =>
    cases rest with
    | nil =>
      have : key = k := List.mem_singleton.mp h
      exact ⟨"", "", by simp [joinComma, this]⟩
    | cons k2 rest2 =>
      rcases List.mem_cons.mp h with rfl | hmem
      · exact ⟨"", ", " ++ joinComma (k2 :: rest2), by simp [joinComma, String.append_assoc]⟩
      · obtain ⟨pre, post, hpp⟩ := ih hmem
        exact ⟨k ++ ", " ++ pre, post, by simp [joinComma, hpp, String.append_assoc]⟩

/-- **C7**: with a set of required sub-condition keys (no duplicate
condition names), the composite condition written by the ready-status
component has type "Ready", its status is True exactly when every key's
condition is present with its desired status (False for `-`-prefixed
keys, True otherwise), and when some required key is unmet the status is
False with reason "CompositeNotRead" and the message naming the unmet
key. -/
theorem c7_ready_aggregation (keys : List String) (conds : List Condition)
    (hnd : (keys.map conditionNameFor).Nodup) :
    (readyStatusReconcile keys conds).condType = "Ready" ∧
    ((readyStatusReconcile keys conds).status = .isTrue ↔
      ∀ key ∈ keys, isStatusConditionPresentAndEqual conds (conditionNameFor key) (desiredStatusFor key) = true) ∧
    (∀ key ∈ keys, isStatusConditionPresentAndEqual conds (conditionNameFor key) (desiredStatusFor key) = false →
      (readyStatusReconcile keys conds).status = .isFalse ∧
      (readyStatusReconcile keys conds).reason = "CompositeNotRead" ∧
      ∃ pre post, (readyStatusReconcile keys conds).message = pre ++ key ++ post) := by
  have hpk := parseReadyKeys_eq_map keys hnd
  by_cases hany : (parseReadyKeys keys).any (fun p => !(isStatusConditionPresentAndEqual conds p.1 p.2))
  · have hres : readyStatusReconcile keys conds =
        ⟨"Ready", .isFalse, "CompositeNotRead",
          "ReadyStatusComponent did not observe correct status of " ++ joinComma keys⟩ := by
      rw [readyStatusReconcile, if_pos hany]
    rw [hpk, any_map_poly] at hany
    simp only [List.any_eq_true, Function.comp] at hany
    obtain ⟨key0, hkey0, hunmet0⟩ := hany
    refine ⟨by rw [hres], ?_, ?_⟩
    · rw [hres]
      constructor
      · intro h; cases h
      · intro hall
        have := hall key0 hkey0
        simp [this] at hunmet0
    · intro key hkey _
      obtain ⟨pre, post, hpp⟩ := joinComma_mentions keys key hkey
      exact ⟨by rw [hres], by rw [hres],
        "ReadyStatusComponent did not observe correct status of " ++ pre, post,
        by rw [hres]; dsimp only; rw [hpp]; simp [String.append_assoc]⟩
  · have hres : readyStatusReconcile keys conds =
        ⟨"Ready", .isTrue, "CompositeReady",
          "ReadyStatusComponent observed correct status of " ++ joinComma keys⟩ := by
      rw [readyStatusReconcile, if_neg hany]
    rw [hpk, any_map_poly] at hany
    have hq : keys.any (fun a => !isStatusConditionPresentAndEqual conds (conditionNameFor a) (desiredStatusFor a)) = false := by
      cases h : keys.any (fun a => !isStatusConditionPresentAndEqual conds (conditionNameFor a) (desiredStatusFor a))
      · rfl
      · exact absurd h hany
    rw [List.any_eq_false] at hq
    refine ⟨by rw [hres], ?_, ?_⟩
    · rw [hres]
      constructor
      · intro _ key hkey
        have h2 := hq key hkey
        simpa using h2
      · intro _; rfl
    · intro key hkey hunmet
      exfalso
      have h2 := hq key hkey
      simp [hunmet] at h2

/-- Witness for C7 at keys `["A", "-B"]` against an object whose
condition A is True and condition B is False. -/
theorem c7_witness :
    (List.map conditionNameFor ["A", "-B"]).Nodup ∧
    ((readyStatusReconcile ["A", "-B"] [⟨"A", .isTrue, 0, "r", "m"⟩, ⟨"B", .isFalse, 0, "r", "m"⟩]).condType = "Ready" ∧
    ((readyStatusReconcile ["A", "-B"] [⟨"A", .isTrue, 0, "r", "m"⟩, ⟨"B", .isFalse, 0, "r", "m"⟩]).status = .isTrue ↔
      ∀ key ∈ ["A", "-B"],
        isStatusConditionPresentAndEqual [⟨"A", .isTrue, 0, "r", "m"⟩, ⟨"B", .isFalse, 0, "r", "m"⟩]
          (conditionNameFor key) (desiredStatusFor key) = true) ∧
    (∀ key ∈ ["A", "-B"],
      isStatusConditionPresentAndEqual [⟨"A", .isTrue, 0, "r", "m"⟩, ⟨"B", .isFalse, 0, "r", "m"⟩]
          (conditionNameFor key) (desiredStatusFor key) = false →
      (readyStatusReconcile ["A", "-B"] [⟨"A", .isTrue, 0, "r", "m"⟩, ⟨"B", .isFalse, 0, "r", "m"⟩]).status = .isFalse ∧
      (readyStatusReconcile ["A", "-B"] [⟨"A", .isTrue, 0, "r", "m"⟩, ⟨"B", .isFalse, 0, "r", "m"⟩]).reason = "CompositeNotRead" ∧
      ∃ pre post,
        (readyStatusReconcile ["A", "-B"] [⟨"A", .isTrue, 0, "r", "m"⟩, ⟨"B", .isFalse, 0, "r", "m"⟩]).message =
          pre ++ key ++ post)) ∧
    (readyStatusReconcile ["A", "-B"] [⟨"A", .isTrue, 0, "r", "m"⟩, ⟨"B", .isFalse, 0, "r", "m"⟩]).status = .isTrue :=
  ⟨by decide,
   c7_ready_aggregation ["A", "-B"] [⟨"A", .isTrue, 0, "r", "m"⟩, ⟨"B", .isFalse, 0, "r", "m"⟩] (by decide),
   by decide⟩

/-- The per-key comparison of the predicate's update loop is exactly
inequality of the optional looked-up values (presence or value
differing). -/
theorem optDiff_iff (a b : Option (List Nat)) :
    ((a.isSome != b.isSome) || !(a.getD [] == b.getD [])) = true ↔ a ≠ b := by
  cases a <;> cases b <;> simp

/-- A `data` entry that is not a string, or whose string fails base64
decoding, makes the unstructured decoding loop panic. -/
def corruptEntry (p : String × UnstructuredValue) : Prop :=
  p.2 = .nonString ∨ ∃ s, p.2 = .str s ∧ base64StdDecode s = none

theorem decodeUnstructuredEntries_panics (entries : List (String × UnstructuredValue))
    (h : ∃ p ∈ entries, corruptEntry p) :
    decodeUnstructuredEntries entries = .panics := by
  induction entries with
  | nil => obtain ⟨p, hp, _⟩ := h; cases hp
  | cons q rest ih =>
    obtain ⟨k, v⟩ := q
    cases v with
    | nonString => rfl
    | str s =>
      cases hdec : base64StdDecode s with
      | none => simp [decodeUnstructuredEntries, hdec]
      | some bs =>
        obtain ⟨p, hp, hcorr⟩ := h
        rcases List.mem_cons.mp hp with rfl | hmem
        · rcases hcorr with h1 | ⟨s2, hs2, hds2⟩
          · cases h1
          · obtain rfl : s = s2 := by injection hs2
            rw [hdec] at hds2
            cases hds2
        · have := ih ⟨p, hmem, hcorr⟩
          simp [decodeUnstructuredEntries, hdec, this]

/-- **C8** is false on the code: an update event carrying an unstructured
core-group Secret whose `data` holds a value that is not valid base64 is
an unreadable payload, yet the predicate panics on it instead of
defaulting to "process". -/
theorem c8_counterexample :
    secretFieldUpdate ["password"]
      (.unstructuredObj "" "Secret" (some (.strMap [("a", .str "!!!")])))
      (.typedSecret []) = .panics := by
  decide

/-- **C8** (amended): update events are processed iff some configured
key's presence or value differs between the readable old and new decoded
payloads; payloads of unrecognized kind or shape (non-Secret objects,
unstructured Secrets without a `data` field) report unreadable and
default to "process"; create, delete and generic events are always
processed.  However, an unstructured core-group Secret whose `data` is
not a string map, or holds a non-string value, or a value that fails
base64 decoding, makes the predicate panic rather than default to
"process". -/
theorem c8_secret_field_predicate (keys : List String) :
    (∀ oldData newData, ∃ b,
      secretFieldUpdate keys (.typedSecret oldData) (.typedSecret newData) = .ok b ∧
      (b = true ↔ ∃ key ∈ keys,
        (oldData.find? (fun p => p.1 = key)).map (fun p => p.2) ≠
        (newData.find? (fun p => p.1 = key)).map (fun p => p.2))) ∧
    (∀ objOld objNew, secretData objOld = .ok none → secretFieldUpdate keys objOld objNew = .ok true) ∧
    (∀ objOld objNew d, secretData objOld = .ok (some d) → secretData objNew = .ok none →
      secretFieldUpdate keys objOld objNew = .ok true) ∧
    (∀ objNew, secretFieldUpdate keys .otherKind objNew = .ok true) ∧
    (∀ g k df objNew, ¬(g = "" ∧ k = "Secret") →
      secretFieldUpdate keys (.unstructuredObj g k df) objNew = .ok true) ∧
    (∀ objNew, secretFieldUpdate keys (.unstructuredObj "" "Secret" none) objNew = .ok true) ∧
    (secretFieldCreate = true ∧ secretFieldDelete = true ∧ secretFieldGeneric = true) ∧
    (∀ entries objNew, (∃ p ∈ entries, corruptEntry p) →
      secretFieldUpdate keys (.unstructuredObj "" "Secret" (some (.strMap entries))) objNew = .panics) := by
  refine ⟨?_, ?_, ?_, ?_, ?_, ?_, ⟨rfl, rfl, rfl⟩, ?_⟩
  · intro oldData newData
    refine ⟨_, rfl, ?_⟩
    simp only [secretFieldUpdate, secretData]
    rw [List.any_eq_true]
    constructor
    · rintro ⟨key, hkey, hdiff⟩
      refine ⟨key, hkey, ?_⟩
      have := (optDiff_iff ((oldData.find? (fun p => p.1 = key)).map (fun p => p.2))
        ((newData.find? (fun p => p.1 = key)).map (fun p => p.2))).mp
      apply this
      simpa [Option.isSome_map] using hdiff
    · rintro ⟨key, hkey, hdiff⟩
      refine ⟨key, hkey, ?_⟩
      have := (optDiff_iff ((oldData.find? (fun p => p.1 = key)).map (fun p => p.2))
        ((newData.find? (fun p => p.1 = key)).map (fun p => p.2))).mpr hdiff
      simpa [Option.isSome_map] using this
  · intro objOld objNew h
    simp [secretFieldUpdate, h]
  · intro objOld objNew d h1 h2
    simp [secretFieldUpdate, h1, h2]
  · intro objNew
    simp [secretFieldUpdate, secretData]
  · intro g k df objNew hns2
    simp [secretFieldUpdate, secretData, hns2]
  · intro objNew
    simp [secretFieldUpdate, secretData]
  · intro entries objNew hcorr
    have hdec := decodeUnstructuredEntries_panics entries hcorr
    simp [secretFieldUpdate, secretData, hdec]

/-- Witness for the amended C8 on concrete events: a changed key
processes, an unchanged key does not, an unreadable old payload
processes. -/
theorem c8_witness :
    (∃ b, secretFieldUpdate ["password"] (.typedSecret [("password", [1])]) (.typedSecret [("password", [2])]) = .ok b ∧
      (b = true ↔ ∃ key ∈ ["password"],
        ([("password", [1])].find? (fun p => p.1 = key)).map (fun p => p.2) ≠
        ([("password", [2])].find? (fun p => p.1 = key)).map (fun p => p.2))) ∧
    secretFieldUpdate ["password"] (.typedSecret [("password", [1])]) (.typedSecret [("password", [2])]) = .ok true ∧
    secretFieldUpdate ["password"] (.typedSecret [("password", [1])]) (.typedSecret [("password", [1])]) = .ok false ∧
    secretFieldUpdate ["password"] .otherKind (.typedSecret []) = .ok true :=
  ⟨(c8_secret_field_predicate ["password"]).1 [("password", [1])] [("password", [2])],
   by decide, by decide,
   (c8_secret_field_predicate ["password"]).2.2.2.1 (.typedSecret [])⟩

theorem find_replace_self {α : Type} (k : String) (v : α) :
    ∀ data : List (String × α), data.any (fun p => p.1 = k) = true →
    ((data.map (fun p => if p.1 = k then (k, v) else p)).find? (fun p => p.1 = k)).map (fun p => p.2) = some v := by
  intro data
  induction data with
  | nil => intro h; simp at h
  | cons q rest ih =>
    intro hany
    obtain ⟨k0, v0⟩ := q
    rw [List.map_cons]
    dsimp only
    by_cases hk : k0 = k
    · rw [if_pos hk, List.find?_cons_of_pos _ (by simp)]
      rfl
    · rw [if_neg hk, List.find?_cons_of_neg _ (by simp [hk])]
      exact ih (by simpa [hk] using hany)

theorem find_append_self {α : Type} (k : String) (v : α) :
    ∀ data : List (String × α), ¬(data.any (fun p => p.1 = k) = true) →
    (((data ++ [(k, v)]).find? (fun p => p.1 = k))).map (fun p => p.2) = some v := by
  intro data
  induction data with
  | nil =>
    intro _
    rw [List.nil_append, List.find?_cons_of_pos _ (by simp)]
    rfl
  | cons q rest ih =>
    intro hany
    obtain ⟨k0, v0⟩ := q
    have hk : ¬ (k0 = k) := fun h => hany (by simp [h])
    rw [List.cons_append, List.find?_cons_of_neg _ (by simp [hk])]
    exact ih (fun hcontra => hany (by simp at hcontra ⊢; exact Or.inr hcontra))

theorem find_mapInsert_self {α : Type} (data : List (String × α)) (k : String) (v : α) :
    ((mapInsert data k v).find? (fun p => p.1 = k)).map (fun p => p.2) = some v := by
  unfold mapInsert
  split
  · exact find_replace_self k v data (by assumption)
  · exact find_append_self k v data (by assumption)

theorem find_replace_other {α : Type} (k k2 : String) (v : α) (h : k2 ≠ k) :
    ∀ data : List (String × α),
    (data.map (fun p => if p.1 = k then (k, v) else p)).find? (fun p => p.1 = k2) =
      data.find? (fun p => p.1 = k2) := by
  intro data
  induction data with
  | nil => simp
  | cons q rest ih =>
    obtain ⟨k0, v0⟩ := q
    rw [List.map_cons]
    dsimp only
    by_cases hk : k0 = k
    · rw [if_pos hk, List.find?_cons_of_neg _ (by simpa using fun hc : k = k2 => h hc.symm),
        List.find?_cons_of_neg _ (by simpa using fun hc : k0 = k2 => h (hk.symm.trans hc).symm)]
      exact ih
    · by_cases hk2 : k0 = k2
      · rw [if_neg hk, List.find?_cons_of_pos _ (by simpa using hk2),
          List.find?_cons_of_pos _ (by simpa using hk2)]
      · rw [if_neg hk, List.find?_cons_of_neg _ (by simpa using hk2),
          List.find?_cons_of_neg _ (by simpa using hk2)]
        exact ih

theorem find_append_other {α : Type} (k k2 : String) (v : α) (h : k2 ≠ k) :
    ∀ data : List (String × α),
    (data ++ [(k, v)]).find? (fun p => p.1 = k2) = data.find? (fun p => p.1 = k2) := by
  intro data
  induction data with
  | nil =>
    rw [List.nil_append, List.find?_cons_of_neg _ (by simpa using fun hc : k = k2 => h hc.symm)]
  | cons q rest ih =>
    obtain ⟨k0, v0⟩ := q
    rw [List.cons_append]
    by_cases hk2 : k0 = k2
    · rw [List.find?_cons_of_pos _ (by simpa using hk2), List.find?_cons_of_pos _ (by simpa using hk2)]
    · rw [List.find?_cons_of_neg _ (by simpa using hk2), List.find?_cons_of_neg _ (by simpa using hk2)]
      exact ih

theorem find_mapInsert_other {α : Type} (data : List (String × α)) (k k2 : String) (v : α)
    (h : k2 ≠ k) :
    (mapInsert data k v).find? (fun p => p.1 = k2) = data.find? (fun p => p.1 = k2) := by
  unfold mapInsert
  split
  · exact find_replace_other k k2 v h data
  · exact find_append_other k k2 v h data

theorem randomSecretLoop_not_mem (existing : List (String × List Char)) (rand : Nat → List Nat) :
    ∀ (keys : List String) (data : List (String × List Char)) (i : Nat) (key : String),
    key ∉ keys →
    (randomSecretLoop existing rand keys data i).find? (fun p => p.1 = key) =
      data.find? (fun p => p.1 = key) := by
  intro keys
  induction keys with
  | nil => intro data i key _; rfl
  | cons k rest ih =>
    intro data i key hnot
    have hk : key ≠ k := fun h => hnot (h ▸ List.mem_cons_self k rest)
    have hrest : key ∉ rest := fun h => hnot (List.mem_cons_of_mem k h)
    simp only [randomSecretLoop]
    cases hfind : existing.find? (fun p => p.1 = k) with
    | none =>
      dsimp only
      rw [ih _ _ _ hrest, find_mapInsert_other _ _ _ _ hk]
    | some p =>
      dsimp only
      by_cases hlen : p.2.length = 0
      · rw [if_pos hlen, ih _ _ _ hrest, find_mapInsert_other _ _ _ _ hk]
      · rw [if_neg hlen, ih _ _ _ hrest, find_mapInsert_other _ _ _ _ hk]

theorem randomSecretLoop_lookup (existing : List (String × List Char)) (rand : Nat → List Nat) :
    ∀ (keys : List String) (data : List (String × List Char)) (i : Nat) (key : String),
    key ∈ keys → keys.Nodup →
    (∀ p, existing.find? (fun q => q.1 = key) = some p → p.2 ≠ [] →
      ((randomSecretLoop existing rand keys data i).find? (fun q => q.1 = key)).map (fun q => q.2) = some p.2) ∧
    ((existing.find? (fun q => q.1 = key) = none ∨
        (∃ p, existing.find? (fun q => q.1 = key) = some p ∧ p.2 = [])) →
      ∃ j, i ≤ j ∧
        ((randomSecretLoop existing rand keys data i).find? (fun q => q.1 = key)).map (fun q => q.2) =
          some (randEncode (rand j))) := by
  intro keys
  induction keys with
  | nil => intro data i key hmem; cases hmem
  | cons k rest ih =>
    intro data i key hmem hnd
    rw [List.nodup_cons] at hnd
    rcases List.mem_cons.mp hmem with rfl | hmemr
    · constructor
      · intro p hfind hne
        have hlen : ¬ p.2.length = 0 := by simpa [List.length_eq_zero] using hne
        simp only [randomSecretLoop, hfind]
        rw [if_neg hlen, randomSecretLoop_not_mem existing rand rest _ _ _ hnd.1,
          find_mapInsert_self]
      · intro hgen
        rcases hgen with hnone | ⟨p, hfind, hempty⟩
        · refine ⟨i, Nat.le_refl i, ?_⟩
          simp only [randomSecretLoop, hnone]
          rw [randomSecretLoop_not_mem existing rand rest _ _ _ hnd.1, find_mapInsert_self]
        · refine ⟨i, Nat.le_refl i, ?_⟩
          simp only [randomSecretLoop, hfind]
          rw [if_pos (by simp [hempty]),
            randomSecretLoop_not_mem existing rand rest _ _ _ hnd.1, find_mapInsert_self]
    · have hstep : ∀ (data2 : List (String × List Char)) (i2 : Nat), i ≤ i2 →
          (∀ p, existing.find? (fun q => q.1 = key) = some p → p.2 ≠ [] →
            ((randomSecretLoop existing rand rest data2 i2).find? (fun q => q.1 = key)).map (fun q => q.2) = some p.2) ∧
          ((existing.find? (fun q => q.1 = key) = none ∨
              (∃ p, existing.find? (fun q => q.1 = key) = some p ∧ p.2 = [])) →
            ∃ j, i ≤ j ∧
              ((randomSecretLoop existing rand rest data2 i2).find? (fun q => q.1 = key)).map (fun q => q.2) =
                some (randEncode (rand j))) := by
        intro data2 i2 hle
        obtain ⟨ha, hb⟩ := ih data2 i2 key hmemr hnd.2
        refine ⟨ha, ?_⟩
        intro hgen
        obtain ⟨j, hj, hval⟩ := hb hgen
        exact ⟨j, Nat.le_trans hle hj, hval⟩
      simp only [randomSecretLoop]
      cases hfind : existing.find? (fun p => p.1 = k) with
      | none => exact hstep _ (i + 1) (Nat.le_succ i)
      | some p =>
        dsimp only
        by_cases hlen : p.2.length = 0
        · rw [if_pos hlen]
          exact hstep _ (i + 1) (Nat.le_succ i)
        · rw [if_neg hlen]
          exact hstep _ i (Nat.le_refl i)

theorem b64Groups_length : ∀ l : List Nat, (b64Groups l).length = (l.length * 8 + 5) / 6
  | [] => by simp [b64Groups]
  | [b1] => by simp [b64Groups]
  | [b1, b2] => by simp [b64Groups]
  | b1 :: b2 :: b3 :: rest => by
    have ih := b64Groups_length rest
    simp only [b64Groups, List.length_cons, ih]
    omega

theorem b64Groups_lt : ∀ l : List Nat, (∀ b ∈ l, b < 256) → ∀ v ∈ b64Groups l, v < 64
  | [], _ => by simp [b64Groups]
  | [b1], h => by
    have h1 := h b1 (by simp)
    simp only [b64Groups, List.mem_cons, List.not_mem_nil, or_false]
    rintro v (rfl | rfl) <;> omega
  | [b1, b2], h => by
    have h1 := h b1 (by simp)
    have h2 := h b2 (by simp)
    simp only [b64Groups, List.mem_cons, List.not_mem_nil, or_false]
    rintro v (rfl | rfl | rfl) <;> omega
  | b1 :: b2 :: b3 :: rest, h => by
    have h1 := h b1 (by simp)
    have h2 := h b2 (by simp)
    have h3 := h b3 (by simp)
    have ih := b64Groups_lt rest (fun b hb => h b (by simp [hb]))
    simp only [b64Groups, List.mem_cons]
    rintro v (rfl | rfl | rfl | rfl | hv)
    · omega
    · omega
    · omega
    · omega
    · exact ih v hv

theorem randAlphabet_getD_mem : ∀ v < 64, randAlphabet.getD v ' ' ∈ randAlphabet := by
  decide

theorem randEncode_spec (raw : List Nat) (hlen : raw.length = RANDOM_BYTES)
    (hbyte : ∀ b ∈ raw, b < 256) :
    (randEncode raw).length = 43 ∧ (∀ c ∈ randEncode raw, c ∈ randAlphabet) ∧ randEncode raw ≠ [] := by
  have hglen : (b64Groups raw).length = 43 := by
    rw [b64Groups_length, hlen]
    rfl
  refine ⟨?_, ?_, ?_⟩
  · simp [randEncode, hglen]
  · intro c hc
    obtain ⟨v, hv, rfl⟩ := List.mem_map.mp hc
    exact randAlphabet_getD_mem v (b64Groups_lt raw hbyte v hv)
  · intro hcontra
    have : (randEncode raw).length = 0 := by rw [hcontra]; rfl
    rw [show (randEncode raw).length = 43 from by simp [randEncode, hglen]] at this
    cases this

/-- **C9**: for every key requested from the random-secret component
(with distinct keys): a stored non-empty value is preserved unchanged by
the reconcile; an absent key or an empty stored value is regenerated as
the unpadded base64-like encoding of 32 fresh random bytes, which is
exactly 43 characters long, drawn from the component's lossy lowercase
alphabet, and in particular non-empty (so a later reconcile preserves
it). -/
theorem c9_random_secret (keys : List String) (existing : List (String × List Char))
    (rand : Nat → List Nat) (hnd : keys.Nodup)
    (hlen : ∀ i, (rand i).length = RANDOM_BYTES)
    (hbyte : ∀ i, ∀ b ∈ rand i, b < 256) :
    ∀ key ∈ keys,
      (∀ p, existing.find? (fun q => q.1 = key) = some p → p.2 ≠ [] →
        ((randomSecretData keys existing rand).find? (fun q => q.1 = key)).map (fun q => q.2) = some p.2) ∧
      ((existing.find? (fun q => q.1 = key) = none ∨
          (∃ p, existing.find? (fun q => q.1 = key) = some p ∧ p.2 = [])) →
        ∃ j, ((randomSecretData keys existing rand).find? (fun q => q.1 = key)).map (fun q => q.2) =
            some (randEncode (rand j)) ∧
          (randEncode (rand j)).length = 43 ∧
          (∀ c ∈ randEncode (rand j), c ∈ randAlphabet) ∧
          randEncode (rand j) ≠ []) := by
  intro key hkey
  obtain ⟨ha, hb⟩ := randomSecretLoop_lookup existing rand keys [] 0 key hkey hnd
  refine ⟨ha, ?_⟩
  intro hgen
  obtain ⟨j, _, hval⟩ := hb hgen
  obtain ⟨h43, hmem, hne⟩ := randEncode_spec (rand j) (hlen j) (hbyte j)
  exact ⟨j, hval, h43, hmem, hne⟩

/-- Witness for C9: requesting key "token" on a fresh (empty) secret
yields a 43-character generated value. -/
theorem c9_witness :
    (["token"] : List String).Nodup ∧
    (∀ p, ([] : List (String × List Char)).find? (fun q => q.1 = "token") = some p → p.2 ≠ [] →
      ((randomSecretData ["token"] [] (fun _ => List.replicate 32 7)).find? (fun q => q.1 = "token")).map (fun q => q.2) = some p.2) ∧
    ((([] : List (String × List Char)).find? (fun q => q.1 = "token") = none ∨
        (∃ p, ([] : List (String × List Char)).find? (fun q => q.1 = "token") = some p ∧ p.2 = [])) →
      ∃ j, ((randomSecretData ["token"] [] (fun _ => List.replicate 32 7)).find? (fun q => q.1 = "token")).map (fun q => q.2) =
          some (randEncode ((fun _ : Nat => List.replicate 32 7) j)) ∧
        (randEncode ((fun _ : Nat => List.replicate 32 7) j)).length = 43 ∧
        (∀ c ∈ randEncode ((fun _ : Nat => List.replicate 32 7) j), c ∈ randAlphabet) ∧
        randEncode ((fun _ : Nat => List.replicate 32 7) j) ≠ []) :=
  ⟨by decide,
   c9_random_secret ["token"] [] (fun _ => List.replicate 32 7) (by decide)
     (fun _ => by simp [RANDOM_BYTES])
     (fun _ b hb => by simp only [List.mem_replicate] at hb; omega)
     "token" (by decide)⟩

end CtrlUtils
